import Mathlib

/-!
# dubbo-buildpacks-deps-sync: staleness filter and transfer pipeline

A shallow embedding of `main.go`: the dependency descriptor with its memoized
parsed URL, the derivation of the storage key (`getObjectKey`, `resolvePath`),
the staleness filter (`filterFiles`) and the transfer executor
(`transferFiles`), together with the parts of Go's standard library
(`strings`, `net/url`, `net/http`) and of the OSS client that these functions
call.

Go strings are byte sequences; they are modelled as lists of byte values.
The storage service and the HTTP origin are modelled as a `World`: the bucket
contents (a finite map from bucket name and key to an object) and the
answers of the network.  Every effect the program issues is recorded in a
trace of `Event`s.
-/

/-- A Go `string`: a sequence of bytes, each below 256. -/
abbrev GoString := List Nat

/-- UTF-8 encoding of one code point. -/
def utf8Char (c : Char) : GoString :=
  let n := c.toNat
  if n < 0x80 then [n]
  else if n < 0x800 then [0xC0 + n / 64, 0x80 + n % 64]
  else if n < 0x10000 then [0xE0 + n / 4096, 0x80 + n / 64 % 64, 0x80 + n % 64]
  else [0xF0 + n / 262144, 0x80 + n / 4096 % 64, 0x80 + n / 64 % 64, 0x80 + n % 64]

/-- The bytes of a string literal of the source. -/
def utf8 (s : String) : GoString :=
  s.toList.flatMap utf8Char

deriving instance DecidableEq for Except

/-- Go `error` values returned by the modelled code.  The program inspects
the text of an error in one place only (the answer of `HeadObject`), so the
errors it builds itself are kept structured. -/
inductive GoError where
  /-- `errors.New(msg)`, or an error of a library whose `Error()` is `msg`. -/
  | text (msg : GoString)
  /-- `url.EscapeError(s)`. -/
  | escape (s : GoString)
  /-- `url.InvalidHostError(s)`. -/
  | invalidHost (s : GoString)
  /-- `fmt.Errorf("invalid port %q after host", colonPort)`. -/
  | invalidPort (colonPort : GoString)
  /-- `&url.Error{Op, URL, Err}`. -/
  | urlError (op : GoString) (rawURL : GoString) (err : GoError)
  /-- `fmt.Errorf("failed to get object meta: %w", err)`. -/
  | objectMeta (err : GoError)
  /-- `fmt.Errorf("failed to transfer %q: %w", uri, err)`. -/
  | transfer (uri : GoString) (err : GoError)
  deriving DecidableEq, Repr

/-! ## Package `strings` -/

namespace strings

/-- Go `strings.HasPrefix(s, p)`. -/
def HasPrefix : GoString → GoString → Bool
  | _, [] => true
  | [], _ :: _ => false
  | c :: s, b :: p => c == b && HasPrefix s p

/-- Go `strings.HasSuffix(s, p)`. -/
def HasSuffix (s p : GoString) : Bool :=
  HasPrefix s.reverse p.reverse

/-- Go `strings.Contains(s, substr)`. -/
def Contains : GoString → GoString → Bool
  | [], substr => substr.isEmpty
  | c :: s, substr => HasPrefix (c :: s) substr || Contains s substr

/-- Go `strings.TrimPrefix(s, p)`: `s` without the leading `p`, or `s`
unchanged when it does not start with `p`. -/
def TrimPrefix (s p : GoString) : GoString :=
  if HasPrefix s p then s.drop p.length else s

/-- Go `strings.Cut(s, sep)` for a one-byte separator: the text before the
first `sep`, the text after it, and whether `sep` was found. -/
def Cut : GoString → Nat → GoString × GoString × Bool
  | [], _ => ([], [], false)
  | c :: s, sep =>
    if c = sep then ([], s, true)
    else
      let r := Cut s sep
      (c :: r.1, r.2.1, r.2.2)

/-- Go `strings.Count(s, sep)` for a one-byte separator. -/
def Count (s : GoString) (sep : Nat) : Nat :=
  s.count sep

/-- Go `strings.Index(s, substr)`; `none` stands for `-1`. -/
def Index : GoString → GoString → Option Nat
  | [], substr => if substr.isEmpty then some 0 else none
  | c :: s, substr =>
    if HasPrefix (c :: s) substr then some 0
    else (Index s substr).map (· + 1)

/-- Go `strings.LastIndex(s, sep)` for a one-byte separator; `none` stands
for `-1`. -/
def LastIndex : GoString → Nat → Option Nat
  | [], _ => none
  | c :: s, sep =>
    match LastIndex s sep with
    | some i => some (i + 1)
    | none => if c = sep then some 0 else none

/-- Go `strings.ToLower` on ASCII letters (the only bytes a scheme holds). -/
def ToLower (s : GoString) : GoString :=
  s.map fun c => if 65 ≤ c ∧ c ≤ 90 then c + 32 else c

end strings

/-! ## Package `net/url`

The program calls `url.Parse` (in `getObjectKey`, and through
`http.NewRequest`) and `url.QueryUnescape` (in `resolvePath`).  Both are
embedded from the standard library.  Of the parsed URL the program reads
`Path` only; the `RawPath` and `RawFragment` hints are left out. -/

namespace url

/-- The `encoding` modes of `net/url`. -/
inductive encoding where
  | encodePath
  | encodePathSegment
  | encodeHost
  | encodeZone
  | encodeUserPassword
  | encodeQueryComponent
  | encodeFragment
  deriving DecidableEq, Repr

/-- The `Userinfo` of a URL. -/
structure Userinfo where
  username : GoString
  password : GoString
  passwordSet : Bool
  deriving DecidableEq, Repr

/-- The fields of `url.URL`. -/
structure URL where
  Scheme : GoString := []
  Opaque : GoString := []
  User : Option Userinfo := none
  Host : GoString := []
  Path : GoString := []
  OmitHost : Bool := false
  ForceQuery : Bool := false
  RawQuery : GoString := []
  Fragment : GoString := []
  deriving DecidableEq, Repr

/-- Go `ishex`. -/
def ishex (c : Nat) : Bool :=
  (48 ≤ c && c ≤ 57) || (97 ≤ c && c ≤ 102) || (65 ≤ c && c ≤ 70)

/-- Go `unhex`. -/
def unhex (c : Nat) : Nat :=
  if 48 ≤ c ∧ c ≤ 57 then c - 48
  else if 97 ≤ c ∧ c ≤ 102 then c - 97 + 10
  else if 65 ≤ c ∧ c ≤ 70 then c - 65 + 10
  else 0

/-- Go `shouldEscape(c, encodeHost)`: alphanumerics, the sub-delimiters and
brackets a host may hold, and the unreserved marks need no escape; every
other byte does. -/
def shouldEscapeHost (c : Nat) : Bool :=
  if (97 ≤ c ∧ c ≤ 122) ∨ (65 ≤ c ∧ c ≤ 90) ∨ (48 ≤ c ∧ c ≤ 57) then false
  else if c ∈ [33, 36, 38, 39, 40, 41, 42, 43, 44, 59, 61, 58, 91, 93, 60, 62, 34] then false
  else if c ∈ [45, 95, 46, 126] then false
  else true

/-- First loop of Go `unescape`: every `%` is followed by two hex digits,
and in host and zone mode no byte is used that a host cannot hold. -/
def unescapeCheck (mode : encoding) : GoString → Option GoError
  | [] => none
  | c :: s =>
    if c = 37 then
      match s with
      | a :: b :: t =>
        if ishex a && ishex b then
          if mode = .encodeHost ∧ unhex a < 8 ∧ [c, a, b] ≠ [37, 50, 53] then
            some (.escape [c, a, b])
          else if mode = .encodeZone ∧ [c, a, b] ≠ [37, 50, 53] ∧ unhex a * 16 + unhex b ≠ 32
              ∧ shouldEscapeHost (unhex a * 16 + unhex b) = true then
            some (.escape [c, a, b])
          else unescapeCheck mode t
        else some (.escape ((c :: s).take 3))
      | _ => some (.escape ((c :: s).take 3))
    else if c = 43 then unescapeCheck mode s
    else if (mode = .encodeHost ∨ mode = .encodeZone) ∧ c < 128 ∧ shouldEscapeHost c = true then
      some (.invalidHost [c])
    else unescapeCheck mode s

/-- Second loop of Go `unescape`: `%XX` becomes the byte `XX`, and in query
mode `+` becomes a space.  (When the text has no `%` and no `+` to replace,
Go returns it as it is, which is what this loop computes as well.) -/
def unescapeBuild (mode : encoding) : GoString → GoString
  | [] => []
  | c :: s =>
    if c = 37 then
      match s with
      | a :: b :: t => (unhex a * 16 + unhex b) :: unescapeBuild mode t
      | _ => []
    else if c = 43 then
      (if mode = .encodeQueryComponent then 32 else 43) :: unescapeBuild mode s
    else c :: unescapeBuild mode s

/-- Go `unescape(s, mode)`. -/
def unescape (s : GoString) (mode : encoding) : Except GoError GoString :=
  match unescapeCheck mode s with
  | some e => .error e
  | none => .ok (unescapeBuild mode s)

/-- Go `url.QueryUnescape(s)`. -/
def QueryUnescape (s : GoString) : Except GoError GoString :=
  unescape s .encodeQueryComponent

/-- Go `stringContainsCTLByte`. -/
def stringContainsCTLByte (s : GoString) : Bool :=
  s.any fun b => b < 32 || b == 127

/-- Go `getScheme`: the scheme and the rest of the URL. -/
def getSchemeFrom (rawURL : GoString) : Nat → GoString → Except GoError (GoString × GoString)
  | _, [] => .ok ([], rawURL)
  | i, c :: s =>
    if (97 ≤ c ∧ c ≤ 122) ∨ (65 ≤ c ∧ c ≤ 90) then getSchemeFrom rawURL (i + 1) s
    else if (48 ≤ c ∧ c ≤ 57) ∨ c = 43 ∨ c = 45 ∨ c = 46 then
      if i = 0 then .ok ([], rawURL) else getSchemeFrom rawURL (i + 1) s
    else if c = 58 then
      if i = 0 then .error (.text (utf8 "missing protocol scheme"))
      else .ok (rawURL.take i, s)
    else .ok ([], rawURL)

/-- Go `getScheme(rawURL)`. -/
def getScheme (rawURL : GoString) : Except GoError (GoString × GoString) :=
  getSchemeFrom rawURL 0 rawURL

/-- Go `validOptionalPort`. -/
def validOptionalPort (port : GoString) : Bool :=
  match port with
  | [] => true
  | c :: digits => c == 58 && digits.all fun b => 48 ≤ b && b ≤ 57

/-- Go `validUserinfo`. -/
def validUserinfo (s : GoString) : Bool :=
  s.all fun r =>
    (65 ≤ r && r ≤ 90) || (97 ≤ r && r ≤ 122) || (48 ≤ r && r ≤ 57)
      || [45, 46, 95, 58, 126, 33, 36, 38, 39, 40, 41, 42, 43, 44, 59, 61, 37, 64].contains r

/-- Go `parseHost`: `host[:port]`, with an IP literal in brackets and its
zone identifier unescaped in their own modes. -/
def parseHost (host : GoString) : Except GoError GoString :=
  if strings.HasPrefix host [91] then
    match strings.LastIndex host 93 with
    | none => .error (.text (utf8 "missing ']' in host"))
    | some i =>
      let colonPort := host.drop (i + 1)
      if !validOptionalPort colonPort then .error (.invalidPort colonPort)
      else
        match strings.Index (host.take i) [37, 50, 53] with
        | some zone =>
          match unescape (host.take zone) .encodeHost with
          | .error e => .error e
          | .ok host1 =>
            match unescape ((host.take i).drop zone) .encodeZone with
            | .error e => .error e
            | .ok host2 =>
              match unescape (host.drop i) .encodeHost with
              | .error e => .error e
              | .ok host3 => .ok (host1 ++ host2 ++ host3)
        | none => unescape host .encodeHost
  else
    match strings.LastIndex host 58 with
    | some i =>
      let colonPort := host.drop i
      if !validOptionalPort colonPort then .error (.invalidPort colonPort)
      else unescape host .encodeHost
    | none => unescape host .encodeHost

/-- Go `parseAuthority`: `[userinfo@]host[:port]`. -/
def parseAuthority (authority : GoString) : Except GoError (Option Userinfo × GoString) :=
  match strings.LastIndex authority 64 with
  | none =>
    match parseHost authority with
    | .error e => .error e
    | .ok host => .ok (none, host)
  | some i =>
    match parseHost (authority.drop (i + 1)) with
    | .error e => .error e
    | .ok host =>
      let userinfo := authority.take i
      if !validUserinfo userinfo then .error (.text (utf8 "net/url: invalid userinfo"))
      else if !strings.Contains userinfo [58] then
        match unescape userinfo .encodeUserPassword with
        | .error e => .error e
        | .ok username => .ok (some ⟨username, [], false⟩, host)
      else
        let c := strings.Cut userinfo 58
        match unescape c.1 .encodeUserPassword with
        | .error e => .error e
        | .ok username =>
          match unescape c.2.1 .encodeUserPassword with
          | .error e => .error e
          | .ok password => .ok (some ⟨username, password, true⟩, host)

/-- Go `parse(rawURL, false)`: a URL without its fragment. -/
def parse (rawURL : GoString) : Except GoError URL :=
  if stringContainsCTLByte rawURL then
    .error (.text (utf8 "net/url: invalid control character in URL"))
  else if rawURL = [42] then .ok { Path := [42] }
  else
    match getScheme rawURL with
    | .error e => .error e
    | .ok (scheme, rest) =>
      let scheme := strings.ToLower scheme
      let forceQuery := strings.HasSuffix rest [63] && strings.Count rest 63 == 1
      let rawQuery := if forceQuery then [] else (strings.Cut rest 63).2.1
      let rest := if forceQuery then rest.take (rest.length - 1) else (strings.Cut rest 63).1
      if !strings.HasPrefix rest [47] ∧ scheme ≠ [] then
        .ok { Scheme := scheme, ForceQuery := forceQuery, RawQuery := rawQuery, Opaque := rest }
      else if !strings.HasPrefix rest [47] ∧ strings.Contains (strings.Cut rest 47).1 [58] then
        .error (.text (utf8 "first path segment in URL cannot contain colon"))
      else if (scheme ≠ [] ∨ !strings.HasPrefix rest [47, 47, 47]) ∧ strings.HasPrefix rest [47, 47] then
        let authority := (rest.drop 2).takeWhile (· ≠ 47)
        let rest := (rest.drop 2).dropWhile (· ≠ 47)
        match parseAuthority authority with
        | .error e => .error e
        | .ok (user, host) =>
          match unescape rest .encodePath with
          | .error e => .error e
          | .ok path =>
            .ok { Scheme := scheme, ForceQuery := forceQuery, RawQuery := rawQuery,
                  User := user, Host := host, Path := path }
      else
        match unescape rest .encodePath with
        | .error e => .error e
        | .ok path =>
          .ok { Scheme := scheme, ForceQuery := forceQuery, RawQuery := rawQuery,
                OmitHost := decide (scheme ≠ []) && strings.HasPrefix rest [47], Path := path }

/-- Go `url.Parse(rawURL)`: the fragment is cut off at the first `#`, the
rest is parsed, and the fragment is unescaped. -/
def Parse (rawURL : GoString) : Except GoError URL :=
  let c := strings.Cut rawURL 35
  match parse c.1 with
  | .error e => .error (.urlError (utf8 "parse") c.1 e)
  | .ok u =>
    if c.2.1 = [] then .ok u
    else
      match unescape c.2.1 .encodeFragment with
      | .error e => .error (.urlError (utf8 "parse") rawURL e)
      | .ok frag => .ok { u with Fragment := frag }

end url

/-! ## Package `net/http` and the object storage client

The answers of the network are data of the `World`: what the origin server
answers to a request, which probes and uploads the storage service refuses,
and what the bucket holds. -/

namespace http

/-- The part of `http.Request` the program sets: method, URL and header. -/
structure Request where
  Method : GoString
  URL : GoString
  Header : List (GoString × GoString)
  deriving DecidableEq, Repr

/-- The part of `http.Response` the program uses. -/
structure Response where
  ContentLength : Int
  Body : GoString
  deriving DecidableEq, Repr

/-- Go `http.NewRequest(method, url, http.NoBody)` for a valid method: it
fails when `url.Parse` rejects the URL. -/
def NewRequest (method rawURL : GoString) : Except GoError Request :=
  match url.Parse rawURL with
  | .error e => .error e
  | .ok _ => .ok { Method := method, URL := rawURL, Header := [] }

/-- Go `Header.Set(key, value)`. -/
def Header.Set (h : List (GoString × GoString)) (key value : GoString) :
    List (GoString × GoString) :=
  (key, value) :: h.filter fun kv => kv.1 ≠ key

end http

namespace oss

/-- A stored object: its body and its user metadata (`map[string]string`). -/
structure Object where
  Body : GoString
  Metadata : List (GoString × GoString)
  deriving DecidableEq, Repr

end oss

/-- Go map indexing `m[key]` on a `map[string]string`: the zero value `""`
when the key is absent. -/
def mapIndex (m : List (GoString × GoString)) (key : GoString) : GoString :=
  match m with
  | [] => []
  | kv :: rest => if kv.1 = key then kv.2 else mapIndex rest key

/-- The storage service and the origin servers. -/
structure World where
  /-- What the buckets hold: for a bucket name and a key, an object. -/
  objects : List ((GoString × GoString) × oss.Object)
  /-- A probe the service does not answer from the bucket (permission
  denied, network failure, ...): the text of the error of `HeadObject`. -/
  headFault : GoString → GoString → Option GoString
  /-- What `http.DefaultClient.Do` returns for a request: a response, or the
  text of its error. -/
  httpDo : http.Request → Except GoString http.Response
  /-- An upload the service refuses: the text of the error of `PutObject`. -/
  putFault : GoString → GoString → Option GoString

/-- The object stored in a bucket at a key, if any. -/
def World.find (objects : List ((GoString × GoString) × oss.Object)) (bucket key : GoString) :
    Option oss.Object :=
  match objects with
  | [] => none
  | e :: rest => if e.1 = (bucket, key) then some e.2 else World.find rest bucket key

/-- The effects the program issues. -/
inductive Event where
  /-- `c.HeadObject` on a bucket and key. -/
  | head (bucket key : GoString)
  /-- `http.DefaultClient.Do` of a GET request for a URI. -/
  | get (uri : GoString)
  /-- `c.PutObject` on a bucket and key, with the value of the `sha256`
  metadata. -/
  | put (bucket key sha256 : GoString)
  deriving DecidableEq, Repr

namespace oss

/-- The text of the error the service answers for a key the bucket does not
hold: the service error with code `NoSuchKey`. -/
def noSuchKeyError : GoString :=
  utf8 "Error returned by Service. Http Status Code: 404. Error Code: NoSuchKey."

/-- The client call `c.HeadObject(ctx, &HeadObjectRequest{Bucket, Key})`: the
metadata of the object, or the text of the error. -/
def HeadObject (w : World) (bucket key : GoString) :
    Except GoString (List (GoString × GoString)) :=
  match w.headFault bucket key with
  | some msg => .error msg
  | none =>
    match World.find w.objects bucket key with
    | none => .error noSuchKeyError
    | some o => .ok o.Metadata

/-- The client call `c.PutObject(ctx, &PutObjectRequest{Bucket, Key, Body,
Metadata})`: unless the service refuses, the object at the key is replaced by
the uploaded body and metadata. -/
def PutObject (w : World) (bucket key body : GoString) (metadata : List (GoString × GoString)) :
    World × Option GoString :=
  match w.putFault bucket key with
  | some msg => (w, some msg)
  | none =>
    ({ w with objects :=
        ((bucket, key), { Body := body, Metadata := metadata })
          :: w.objects.filter fun e => e.1 ≠ (bucket, key) }, none)

end oss

/-! ## `main.go` -/

/-- The struct `dependency`: the manifest fields and the memoized parsed
URL (`nil` is `none`). -/
structure dependency where
  ID : GoString
  Sha256 : GoString
  Uri : GoString
  Version : GoString
  url : Option url.URL
  deriving DecidableEq, Repr

/-- The method `getObjectKey`: the path of the memoized URL when there is
one; otherwise the URI is parsed, the result is stored in the descriptor, and
its path is returned.  The descriptor is returned with the result because
the receiver is a pointer. -/
def dependency.getObjectKey (d : dependency) : Except GoError GoString × dependency :=
  match d.url with
  | some u => (.ok u.Path, d)
  | none =>
    match url.Parse d.Uri with
    | .error err => (.error err, { d with url := none })
    | .ok u => (.ok u.Path, { d with url := some u })

/-- The function `resolvePath`. -/
def resolvePath (p : GoString) : Except GoError GoString :=
  match url.QueryUnescape p with
  | .error err => .error err
  | .ok path => .ok (strings.TrimPrefix path (utf8 "/"))

/-- The constant `sha256MetadataKey`. -/
def sha256MetadataKey : GoString := utf8 "sha256"

/-- The function `setGhHeader`. -/
def setGhHeader (h : List (GoString × GoString)) (ghToken : GoString) :
    List (GoString × GoString) :=
  if ghToken ≠ [] then http.Header.Set h (utf8 "Authorization") (utf8 "Bearer " ++ ghToken)
  else h

/-- The body of the loop of `filterFiles` for one descriptor: the probe it
issues, and the list `filtered` after the iteration or the error returned. -/
def filterFiles.body (w : World) (bucket : GoString) (filtered : List dependency)
    (dep : dependency) : List Event × Except GoError (List dependency) :=
  match dep.getObjectKey with
  | (.error err, _) => ([], .error err)
  | (.ok path, dep) =>
    match resolvePath path with
    | .error err => ([], .error err)
    | .ok path =>
      match oss.HeadObject w bucket path with
      | .error msg =>
        if !strings.Contains msg (utf8 "NoSuchKey") then
          ([.head bucket path], .error (.objectMeta (.text msg)))
        else ([.head bucket path], .ok (filtered ++ [dep]))
      | .ok metadata =>
        if mapIndex metadata sha256MetadataKey ≠ dep.Sha256 then
          ([.head bucket path], .ok (filtered ++ [dep]))
        else ([.head bucket path], .ok filtered)

/-- The loop of `filterFiles` over the remaining descriptors. -/
def filterFiles.loop (w : World) (bucket : GoString) :
    List dependency → List dependency → List Event × Except GoError (List dependency)
  | [], filtered => ([], .ok filtered)
  | dep :: deps, filtered =>
    match filterFiles.body w bucket filtered dep with
    | (evs, .error err) => (evs, .error err)
    | (evs, .ok filtered) =>
      let r := filterFiles.loop w bucket deps filtered
      (evs ++ r.1, r.2)

/-- The function `filterFiles`: the trace of probes, and the filtered list
or the error. -/
def filterFiles (w : World) (bucket : GoString) (deps : List dependency) :
    List Event × Except GoError (List dependency) :=
  filterFiles.loop w bucket deps []

/-- The body of the loop of `transferFiles` for one descriptor: the world
after the iteration, the effects issued, and the error returned if any.
Logging and the progress bar are left out. -/
def transferFiles.body (w : World) (bucket ghToken : GoString) (dep : dependency) :
    World × List Event × Option GoError :=
  match dep.getObjectKey with
  | (.error err, _) => (w, [], some err)
  | (.ok path, dep) =>
    match resolvePath path with
    | .error err => (w, [], some err)
    | .ok path =>
      match http.NewRequest (utf8 "GET") dep.Uri with
      | .error err => (w, [], some err)
      | .ok req =>
        let req := { req with Header := setGhHeader req.Header ghToken }
        match w.httpDo req with
        | .error msg => (w, [.get dep.Uri], some (.text msg))
        | .ok resp =>
          match oss.PutObject w bucket path resp.Body [(sha256MetadataKey, dep.Sha256)] with
          | (w, some msg) =>
            (w, [.get dep.Uri, .put bucket path dep.Sha256],
              some (.transfer dep.Uri (.text msg)))
          | (w, none) => (w, [.get dep.Uri, .put bucket path dep.Sha256], none)

/-- The function `transferFiles`: the world after the call, the trace of
downloads and uploads, and the error returned (`none` is `nil`). -/
def transferFiles (w : World) (bucket ghToken : GoString) :
    List dependency → World × List Event × Option GoError
  | [] => (w, [], none)
  | dep :: deps =>
    match transferFiles.body w bucket ghToken dep with
    | (w, evs, some err) => (w, evs, some err)
    | (w, evs, none) =>
      let r := transferFiles w bucket ghToken deps
      (r.1, evs ++ r.2.1, r.2.2)

/-! ## Notions used to state the properties -/

/-- The storage key of a descriptor: `getObjectKey` followed by
`resolvePath`, as both `filterFiles` and `transferFiles` compute it. -/
def storageKey (d : dependency) : Except GoError GoString :=
  match d.getObjectKey.1 with
  | .error err => .error err
  | .ok path => resolvePath path

/-- The storage key derived from a URI alone. -/
def keyOfUri (uri : GoString) : Except GoError GoString :=
  match url.Parse uri with
  | .error err => .error err
  | .ok u => resolvePath u.Path

/-- The descriptor as `getObjectKey` leaves it. -/
def dependency.memo (d : dependency) : dependency :=
  d.getObjectKey.2

/-- The manifest entry of a descriptor: its exported fields, without the
memoized URL. -/
def dependency.entry (d : dependency) : dependency :=
  { d with url := none }

/-- The memoized URL of a descriptor is empty or the parse of its `Uri`. -/
def cacheOk (d : dependency) : Bool :=
  match d.url with
  | none => true
  | some u => decide (url.Parse d.Uri = .ok u)

/-- The error text counts as the not-found condition: the test of
`filterFiles`. -/
def isNoSuchKey (msg : GoString) : Bool :=
  strings.Contains msg (utf8 "NoSuchKey")

/-- The key of the descriptor resolves and the probe of that key succeeds or
fails with the not-found condition. -/
def probeAnswers (w : World) (bucket : GoString) (d : dependency) : Bool :=
  match storageKey d with
  | .error _ => false
  | .ok key =>
    match oss.HeadObject w bucket key with
    | .ok _ => true
    | .error msg => isNoSuchKey msg

/-- The descriptor must be transferred: its probe was not-found, or the
stored `sha256` metadata value differs from its `Sha256`. -/
def needsTransfer (w : World) (bucket : GoString) (d : dependency) : Bool :=
  match storageKey d with
  | .error _ => false
  | .ok key =>
    match oss.HeadObject w bucket key with
    | .ok metadata => mapIndex metadata sha256MetadataKey != d.Sha256
    | .error msg => isNoSuchKey msg

/-- The probe `filterFiles` issues for a descriptor whose key resolves. -/
def probeEvents (bucket : GoString) (d : dependency) : List Event :=
  match storageKey d with
  | .error _ => []
  | .ok key => [.head bucket key]

/-- The download and the upload of a descriptor whose key resolves. -/
def transferEvents (bucket : GoString) (d : dependency) : List Event :=
  match storageKey d with
  | .error _ => []
  | .ok key => [.get d.Uri, .put bucket key d.Sha256]

/-- The error `filterFiles` returns at a descriptor that stops it. -/
def filterError (w : World) (bucket : GoString) (d : dependency) : GoError :=
  match storageKey d with
  | .error err => err
  | .ok key =>
    match oss.HeadObject w bucket key with
    | .ok _ => .text []
    | .error msg => .objectMeta (.text msg)

/-- The probes answer from the bucket alone: no probe is refused. -/
def World.probesReadBucket (w : World) : Prop :=
  ∀ bucket key, w.headFault bucket key = none

/-- The request `transferFiles` sends for a descriptor. -/
def downloadRequest (ghToken : GoString) (d : dependency) : http.Request :=
  { Method := utf8 "GET", URL := d.Uri, Header := setGhHeader [] ghToken }

/-- The transfer of the descriptor succeeds: its loop iteration in
`transferFiles` returns no error.  (The answers of the origin and the refusals
of the service do not depend on what the bucket holds, so this does not depend
on the transfers made before.) -/
def transferSucceeds (w : World) (bucket ghToken : GoString) (d : dependency) : Bool :=
  (transferFiles.body w bucket ghToken d).2.2.isNone

/-- Two worlds with the same network: the same refusals of probes and
uploads and the same answers of the origin; only the bucket contents may
differ. -/
def sameNetwork (w1 w2 : World) : Prop :=
  w1.headFault = w2.headFault ∧ w1.httpDo = w2.httpDo ∧ w1.putFault = w2.putFault

/-- What `url.QueryUnescape` does to a byte that is not part of an escape:
`+` becomes a space. -/
def plusToSpace (c : Nat) : Nat :=
  if c = 43 then 32 else c

/-- The states of a descriptor the program reaches: decoded from the
manifest, with no memoized URL (the field is not exported), and then after any
number of calls of `getObjectKey`, the only code that writes the field. -/
inductive Reachable : dependency → Prop where
  | decoded (ID Sha256 Uri Version : GoString) : Reachable ⟨ID, Sha256, Uri, Version, none⟩
  | called (d : dependency) : Reachable d → Reachable d.getObjectKey.2

/-! ## Example worlds and descriptors -/

/-- The bucket name of the examples. -/
def exBucket : GoString := utf8 "deps"

/-- The text of a refusal of the service. -/
def exAccessDenied : GoString :=
  utf8 "Error returned by Service. Http Status Code: 403. Error Code: AccessDenied."

/-- The text of a failed download, after a redirect to a mirror. -/
def exConnectionRefused : GoString :=
  utf8 "Get \"https://mirror.host/gone.bin\": dial tcp: connection refused"

/-- An example world.  The bucket holds an object with a recorded hash at
`current.bin`, one with an older hash at `stale.bin` and one without
metadata at `bare.bin`; probes of `denied.bin` are refused; the origin does
not answer for `gone.bin`; uploads to `locked.bin` are refused. -/
def exWorld : World where
  objects :=
    [((exBucket, utf8 "current.bin"), ⟨[1, 2, 3], [(utf8 "sha256", utf8 "aaa111")]⟩),
     ((exBucket, utf8 "stale.bin"), ⟨[4, 5], [(utf8 "sha256", utf8 "000fff")]⟩),
     ((exBucket, utf8 "bare.bin"), ⟨[6], []⟩)]
  headFault := fun _ key =>
    if key = utf8 "denied.bin" then some exAccessDenied else none
  httpDo := fun req =>
    if req.URL = utf8 "https://host/gone.bin" then .error exConnectionRefused
    else .ok ⟨3, [7, 8, 9]⟩
  putFault := fun _ key =>
    if key = utf8 "locked.bin" then some exAccessDenied else none

/-- A world without refusals and failures: every probe answers from the
bucket, every download and every upload succeeds.  The bucket holds an object
with an older hash at `stale.bin` and one with a recorded hash at
`current.bin`. -/
def exQuiet : World where
  objects :=
    [((exBucket, utf8 "current.bin"), ⟨[1, 2, 3], [(utf8 "sha256", utf8 "aaa111")]⟩),
     ((exBucket, utf8 "stale.bin"), ⟨[4, 5], [(utf8 "sha256", utf8 "000fff")]⟩)]
  headFault := fun _ _ => none
  httpDo := fun _ => .ok ⟨3, [7, 8, 9]⟩
  putFault := fun _ _ => none

/-- The text of a refusal of a probe: the service denies access, and the
text of the error names the request, with the key in it. -/
def exNamedDenied : GoString :=
  utf8 ("Error returned by Service. Http Status Code: 403. Error Code: AccessDenied. "
    ++ "Request Endpoint: HEAD https://deps.oss.example.com/NoSuchKey.bin.")

/-- A world in which the bucket holds an object with a recorded hash at
`NoSuchKey.bin` and the probes of that key are refused. -/
def exRefusing : World where
  objects := [((exBucket, utf8 "NoSuchKey.bin"), ⟨[1, 2], [(utf8 "sha256", utf8 "999ddd")]⟩)]
  headFault := fun _ key => if key = utf8 "NoSuchKey.bin" then some exNamedDenied else none
  httpDo := fun _ => .ok ⟨3, [7, 8, 9]⟩
  putFault := fun _ _ => none

/-- A descriptor whose key is `NoSuchKey.bin`, with the hash the bucket
records. -/
def exNamed : dependency :=
  ⟨utf8 "k", utf8 "999ddd", utf8 "https://host/NoSuchKey.bin", [], none⟩

/-- The descriptor of the end-to-end scenario of the specification. -/
def exPlus : dependency :=
  ⟨utf8 "a", utf8 "abc123", utf8 "https://host/x%2By.bin", [], none⟩

/-- A descriptor whose object is stored with the same hash. -/
def exCurrent : dependency :=
  ⟨utf8 "b", utf8 "aaa111", utf8 "https://host/current.bin", utf8 "1.0", none⟩

/-- A descriptor whose object is stored with another hash. -/
def exStale : dependency :=
  ⟨utf8 "c", utf8 "bbb222", utf8 "https://host/stale.bin", utf8 "1.0", none⟩

/-- A descriptor with an empty `Sha256` whose object has no metadata. -/
def exBare : dependency :=
  ⟨utf8 "d", [], utf8 "https://host/bare.bin", [], none⟩

/-- A descriptor with a hash whose object has no metadata. -/
def exBareHashed : dependency :=
  ⟨utf8 "d", utf8 "ccc333", utf8 "https://host/bare.bin", [], none⟩

/-- A descriptor whose probe is refused. -/
def exDenied : dependency :=
  ⟨utf8 "e", utf8 "ddd444", utf8 "https://host/denied.bin", [], none⟩

/-- A descriptor whose `Uri` is a relative reference. -/
def exRelative : dependency :=
  ⟨utf8 "f", utf8 "eee555", utf8 "foo/bar.bin", [], none⟩

/-- A descriptor whose `Uri` has a malformed escape. -/
def exBadEscape : dependency :=
  ⟨utf8 "g", utf8 "fff666", utf8 "https://host/%zz", [], none⟩

/-- A descriptor whose download fails. -/
def exGone : dependency :=
  ⟨utf8 "h", utf8 "777aaa", utf8 "https://host/gone.bin", [], none⟩

/-- A descriptor whose upload is refused. -/
def exLocked : dependency :=
  ⟨utf8 "i", utf8 "888bbb", utf8 "https://host/locked.bin", [], none⟩

/-- A second descriptor for the key `stale.bin`, from another host and with
another hash. -/
def exStaleMirror : dependency :=
  ⟨utf8 "j", utf8 "ccc999", utf8 "https://mirror.host/stale.bin", utf8 "2.0", none⟩

/-! ## Lemmas on key resolution -/

theorem memo_Sha256 (d : dependency) : d.memo.Sha256 = d.Sha256 := by
  unfold dependency.memo dependency.getObjectKey
  cases d.url with
  | some u => rfl
  | none => cases url.Parse d.Uri <;> rfl

theorem memo_Uri (d : dependency) : d.memo.Uri = d.Uri := by
  unfold dependency.memo dependency.getObjectKey
  cases d.url with
  | some u => rfl
  | none => cases url.Parse d.Uri <;> rfl

theorem memo_entry (d : dependency) : d.memo.entry = d.entry := by
  unfold dependency.memo dependency.getObjectKey dependency.entry
  cases d.url with
  | some u => rfl
  | none => cases url.Parse d.Uri <;> rfl

theorem storageKey_memo (d : dependency) : storageKey d.memo = storageKey d := by
  unfold storageKey dependency.memo dependency.getObjectKey
  cases h : d.url with
  | some u => simp [h]
  | none => cases hp : url.Parse d.Uri <;> simp [h, hp]

theorem cacheOk_memo (d : dependency) (h : cacheOk d = true) : cacheOk d.memo = true := by
  unfold dependency.memo dependency.getObjectKey
  cases hu : d.url with
  | some u => simpa [hu] using h
  | none => cases hp : url.Parse d.Uri <;> simp [cacheOk, hp]

theorem storageKey_eq_keyOfUri (d : dependency) (h : cacheOk d = true) :
    storageKey d = keyOfUri d.Uri := by
  unfold storageKey keyOfUri dependency.getObjectKey
  cases hu : d.url with
  | some u =>
    have hp : url.Parse d.Uri = .ok u := by simpa [cacheOk, hu] using h
    simp [hp]
  | none => cases hp : url.Parse d.Uri <;> simp

theorem getObjectKey_eq (d : dependency) : d.getObjectKey = (d.getObjectKey.1, d.memo) := rfl

/-- The loop body of `filterFiles` in terms of the storage key. -/
theorem filterFiles_body_eq (w : World) (bucket : GoString) (filtered : List dependency)
    (d : dependency) :
    filterFiles.body w bucket filtered d =
      match storageKey d with
      | .error err => ([], .error err)
      | .ok key =>
        match oss.HeadObject w bucket key with
        | .error msg =>
          if isNoSuchKey msg then ([.head bucket key], .ok (filtered ++ [d.memo]))
          else ([.head bucket key], .error (.objectMeta (.text msg)))
        | .ok metadata =>
          if mapIndex metadata sha256MetadataKey ≠ d.Sha256 then
            ([.head bucket key], .ok (filtered ++ [d.memo]))
          else ([.head bucket key], .ok filtered) := by
  unfold filterFiles.body storageKey
  rw [getObjectKey_eq d]
  cases hk : d.getObjectKey.1 with
  | error err => rfl
  | ok path =>
    simp only []
    cases hr : resolvePath path with
    | error err => rfl
    | ok key =>
      simp only []
      cases hh : oss.HeadObject w bucket key with
      | error msg => by_cases hn : isNoSuchKey msg = true <;> simp_all [isNoSuchKey]
      | ok metadata => simp [memo_Sha256]

/-! ## Lemmas on the filter loop -/

theorem probeEvents_of_answers (w : World) (bucket : GoString) (d : dependency)
    (h : probeAnswers w bucket d = true) :
    ∃ key, storageKey d = .ok key ∧ probeEvents bucket d = [.head bucket key] := by
  unfold probeAnswers at h
  unfold probeEvents
  cases hk : storageKey d with
  | error err => simp [hk] at h
  | ok key => exact ⟨key, rfl, rfl⟩

/-- One iteration on a descriptor whose probe answers. -/
theorem filterFiles_body_answers (w : World) (bucket : GoString) (filtered : List dependency)
    (d : dependency) (h : probeAnswers w bucket d = true) :
    filterFiles.body w bucket filtered d =
      (probeEvents bucket d,
        .ok (filtered ++ if needsTransfer w bucket d then [d.memo] else [])) := by
  rw [filterFiles_body_eq]
  unfold probeAnswers at h
  unfold needsTransfer probeEvents
  cases hk : storageKey d with
  | error err => simp [hk] at h
  | ok key =>
    simp only [hk] at h ⊢
    split
    · next msg hh =>
      simp only [hh] at h
      simp [hh, h]
    · next metadata hh =>
      by_cases hm : mapIndex metadata sha256MetadataKey = d.Sha256 <;> simp [hh, hm]

/-- One iteration on a descriptor whose key does not resolve or whose probe
fails otherwise. -/
theorem filterFiles_body_stops (w : World) (bucket : GoString) (filtered : List dependency)
    (d : dependency) (h : probeAnswers w bucket d = false) :
    filterFiles.body w bucket filtered d =
      (probeEvents bucket d, .error (filterError w bucket d)) := by
  rw [filterFiles_body_eq]
  unfold probeAnswers at h
  unfold filterError probeEvents
  cases hk : storageKey d with
  | error err => rfl
  | ok key =>
    simp only [hk] at h ⊢
    split
    · next msg hh =>
      simp only [hh] at h
      simp [hh, h]
    · next metadata hh => simp [hh] at h

/-- The loop over descriptors whose probes all answer. -/
theorem filterFiles_loop_answers (w : World) (bucket : GoString) (deps : List dependency) :
    ∀ filtered : List dependency, (∀ d ∈ deps, probeAnswers w bucket d = true) →
      filterFiles.loop w bucket deps filtered =
        (deps.flatMap (probeEvents bucket),
          .ok (filtered ++ (deps.filter (needsTransfer w bucket)).map dependency.memo)) := by
  induction deps with
  | nil => intro filtered _; simp [filterFiles.loop]
  | cons d deps ih =>
    intro filtered h
    have hd : probeAnswers w bucket d = true := h d (List.mem_cons_self _ _)
    have hrest : ∀ p ∈ deps, probeAnswers w bucket p = true :=
      fun p hp => h p (List.mem_cons_of_mem _ hp)
    unfold filterFiles.loop
    rw [filterFiles_body_answers w bucket filtered d hd]
    simp only []
    rw [ih _ hrest]
    by_cases hn : needsTransfer w bucket d = true
    · simp [hn, List.filter_cons]
    · simp [hn, List.filter_cons]

/-- The loop stops at the first descriptor whose probe does not answer. -/
theorem filterFiles_loop_stops (w : World) (bucket : GoString) (pre : List dependency)
    (d : dependency) (post : List dependency) :
    ∀ filtered : List dependency, (∀ p ∈ pre, probeAnswers w bucket p = true) →
      probeAnswers w bucket d = false →
      filterFiles.loop w bucket (pre ++ d :: post) filtered =
        (pre.flatMap (probeEvents bucket) ++ probeEvents bucket d,
          .error (filterError w bucket d)) := by
  induction pre with
  | nil =>
    intro filtered _ hd
    simp [filterFiles.loop, filterFiles_body_stops w bucket filtered d hd]
  | cons p pre ih =>
    intro filtered h hd
    have hp : probeAnswers w bucket p = true := h p (List.mem_cons_self _ _)
    have hrest : ∀ q ∈ pre, probeAnswers w bucket q = true :=
      fun q hq => h q (List.mem_cons_of_mem _ hq)
    simp only [List.cons_append]
    unfold filterFiles.loop
    rw [filterFiles_body_answers w bucket filtered p hp]
    simp only []
    rw [ih _ hrest hd]
    simp

/-- A list with a descriptor whose probe does not answer splits at the first
such descriptor. -/
theorem split_at_first_stop (w : World) (bucket : GoString) (deps : List dependency) :
    (∃ d ∈ deps, probeAnswers w bucket d = false) →
      ∃ pre d post, deps = pre ++ d :: post ∧ (∀ p ∈ pre, probeAnswers w bucket p = true) ∧
        probeAnswers w bucket d = false := by
  induction deps with
  | nil => rintro ⟨d, hd, _⟩; simp at hd
  | cons x deps ih =>
    rintro ⟨d, hd, hfalse⟩
    by_cases hx : probeAnswers w bucket x = true
    · have hmem : d ∈ deps := by
        rcases List.mem_cons.mp hd with h | h
        · subst h; rw [hx] at hfalse; cases hfalse
        · exact h
      obtain ⟨pre, e, post, rfl, hpre, he⟩ := ih ⟨d, hmem, hfalse⟩
      refine ⟨x :: pre, e, post, rfl, ?_, he⟩
      intro p hp
      rcases List.mem_cons.mp hp with h | h
      · subst h; exact hx
      · exact hpre p h
    · exact ⟨[], x, deps, rfl, by simp, by simpa using hx⟩

/-- The filter fails as soon as one probe does not answer; the probes issued
are those of the descriptors up to the first such descriptor. -/
theorem filterFiles_fails (w : World) (bucket : GoString) (deps : List dependency)
    (h : ∃ d ∈ deps, probeAnswers w bucket d = false) :
    ∃ pre d post, deps = pre ++ d :: post ∧ (∀ p ∈ pre, probeAnswers w bucket p = true) ∧
      probeAnswers w bucket d = false ∧
      filterFiles w bucket deps =
        (pre.flatMap (probeEvents bucket) ++ probeEvents bucket d,
          .error (filterError w bucket d)) := by
  obtain ⟨pre, d, post, rfl, hpre, hd⟩ := split_at_first_stop w bucket deps h
  exact ⟨pre, d, post, rfl, hpre, hd, filterFiles_loop_stops w bucket pre d post [] hpre hd⟩

/-- The filter over descriptors whose probes all answer: one probe per
descriptor, and the descriptors that need a transfer, in their order. -/
theorem filterFiles_of_answers (w : World) (bucket : GoString) (deps : List dependency)
    (h : ∀ d ∈ deps, probeAnswers w bucket d = true) :
    filterFiles w bucket deps =
      (deps.flatMap (probeEvents bucket),
        .ok ((deps.filter (needsTransfer w bucket)).map dependency.memo)) := by
  unfold filterFiles
  rw [filterFiles_loop_answers w bucket deps [] h]
  simp

/-- The filter succeeds exactly when every probe answers. -/
theorem filterFiles_ok_answers (w : World) (bucket : GoString) (deps F : List dependency)
    (h : (filterFiles w bucket deps).2 = .ok F) : ∀ d ∈ deps, probeAnswers w bucket d = true := by
  intro d hd
  by_contra hne
  have hfalse : probeAnswers w bucket d = false := by simpa using hne
  obtain ⟨pre, e, post, _, _, _, heq⟩ := filterFiles_fails w bucket deps ⟨d, hd, hfalse⟩
  rw [heq] at h
  cases h

/-! ## Lemmas on the transfer loop -/

theorem NewRequest_ok (d : dependency) (key : GoString) (h : storageKey d = .ok key)
    (hc : cacheOk d = true) (ghToken : GoString) :
    ∃ req, http.NewRequest (utf8 "GET") d.Uri = .ok req ∧
      { req with Header := setGhHeader req.Header ghToken } = downloadRequest ghToken d := by
  rw [storageKey_eq_keyOfUri d hc] at h
  unfold keyOfUri at h
  unfold http.NewRequest
  cases hp : url.Parse d.Uri with
  | error err => simp [hp] at h
  | ok u => exact ⟨_, rfl, rfl⟩

/-- The world after an upload the service accepts. -/
theorem PutObject_eq (w : World) (bucket key body : GoString)
    (metadata : List (GoString × GoString)) :
    oss.PutObject w bucket key body metadata =
      match w.putFault bucket key with
      | some msg => (w, some msg)
      | none =>
        ({ w with objects :=
            ((bucket, key), { Body := body, Metadata := metadata })
              :: w.objects.filter fun e => e.1 ≠ (bucket, key) }, none) := rfl

/-- The loop body of `transferFiles` in terms of the storage key. -/
theorem transferFiles_body_eq (w : World) (bucket ghToken : GoString) (d : dependency) :
    transferFiles.body w bucket ghToken d =
      match storageKey d with
      | .error err => (w, [], some err)
      | .ok key =>
        match http.NewRequest (utf8 "GET") d.Uri with
        | .error err => (w, [], some err)
        | .ok _ =>
          match w.httpDo (downloadRequest ghToken d) with
          | .error msg => (w, [.get d.Uri], some (.text msg))
          | .ok resp =>
            match w.putFault bucket key with
            | some msg =>
              (w, [.get d.Uri, .put bucket key d.Sha256], some (.transfer d.Uri (.text msg)))
            | none =>
              ({ w with objects :=
                  ((bucket, key),
                    { Body := resp.Body, Metadata := [(sha256MetadataKey, d.Sha256)] })
                    :: w.objects.filter fun e => e.1 ≠ (bucket, key) },
                [.get d.Uri, .put bucket key d.Sha256], none) := by
  unfold transferFiles.body storageKey
  rw [getObjectKey_eq d]
  cases hk : d.getObjectKey.1 with
  | error err => rfl
  | ok path =>
    simp only []
    cases hr : resolvePath path with
    | error err => rfl
    | ok key =>
      simp only [memo_Uri, memo_Sha256]
      unfold http.NewRequest
      cases hp : url.Parse d.Uri with
      | error err => rfl
      | ok u =>
        simp only []
        unfold downloadRequest
        generalize w.httpDo _ = r
        cases r with
        | error msg => rfl
        | ok resp =>
          simp only [PutObject_eq]
          cases hf : w.putFault bucket key <;> rfl

theorem sameNetwork_refl (w : World) : sameNetwork w w := ⟨rfl, rfl, rfl⟩

theorem sameNetwork_trans {w1 w2 w3 : World} (h12 : sameNetwork w1 w2)
    (h23 : sameNetwork w2 w3) : sameNetwork w1 w3 :=
  ⟨h12.1.trans h23.1, h12.2.1.trans h23.2.1, h12.2.2.trans h23.2.2⟩

/-- One iteration of `transferFiles` changes the bucket contents only. -/
theorem transferFiles_body_network (w : World) (bucket ghToken : GoString) (d : dependency) :
    sameNetwork (transferFiles.body w bucket ghToken d).1 w := by
  rw [transferFiles_body_eq]
  cases storageKey d with
  | error err => exact sameNetwork_refl w
  | ok key =>
    simp only []
    cases http.NewRequest (utf8 "GET") d.Uri with
    | error err => exact sameNetwork_refl w
    | ok req =>
      simp only []
      cases w.httpDo (downloadRequest ghToken d) with
      | error msg => exact sameNetwork_refl w
      | ok resp =>
        simp only []
        cases w.putFault bucket key with
        | some msg => exact sameNetwork_refl w
        | none => exact ⟨rfl, rfl, rfl⟩

/-- The effects and the outcome of one iteration depend on the network
only, not on what the bucket holds. -/
theorem transferFiles_body_congr (w1 w2 : World) (bucket ghToken : GoString) (d : dependency)
    (h : sameNetwork w1 w2) :
    (transferFiles.body w1 bucket ghToken d).2 = (transferFiles.body w2 bucket ghToken d).2 := by
  obtain ⟨_, hdo, hput⟩ := h
  rw [transferFiles_body_eq, transferFiles_body_eq, hdo, hput]
  cases storageKey d with
  | error err => rfl
  | ok key =>
    simp only []
    cases http.NewRequest (utf8 "GET") d.Uri with
    | error err => rfl
    | ok req =>
      simp only []
      cases w2.httpDo (downloadRequest ghToken d) with
      | error msg => rfl
      | ok resp =>
        simp only []
        cases w2.putFault bucket key <;> rfl

theorem transferSucceeds_congr (w1 w2 : World) (bucket ghToken : GoString) (d : dependency)
    (h : sameNetwork w1 w2) :
    transferSucceeds w1 bucket ghToken d = transferSucceeds w2 bucket ghToken d := by
  unfold transferSucceeds
  rw [transferFiles_body_congr w1 w2 bucket ghToken d h]

/-- An iteration that succeeds: the key resolved, the download answered,
and the object at the key is replaced, with the descriptor's hash as its
`sha256` metadata. -/
theorem transferFiles_body_succeeds (w : World) (bucket ghToken : GoString) (d : dependency)
    (h : transferSucceeds w bucket ghToken d = true) :
    ∃ key resp, storageKey d = .ok key ∧ w.httpDo (downloadRequest ghToken d) = .ok resp ∧
      transferFiles.body w bucket ghToken d =
        ({ w with objects :=
            ((bucket, key), { Body := resp.Body, Metadata := [(sha256MetadataKey, d.Sha256)] })
              :: w.objects.filter fun e => e.1 ≠ (bucket, key) },
          transferEvents bucket d, none) := by
  unfold transferSucceeds at h
  rw [transferFiles_body_eq] at h ⊢
  unfold transferEvents
  cases hk : storageKey d with
  | error err => simp [hk] at h
  | ok key =>
    simp only [hk] at h ⊢
    cases hr : http.NewRequest (utf8 "GET") d.Uri with
    | error err => simp [hr] at h
    | ok req =>
      simp only [hr] at h ⊢
      cases hd : w.httpDo (downloadRequest ghToken d) with
      | error msg => simp [hd] at h
      | ok resp =>
        simp only [hd] at h ⊢
        cases hf : w.putFault bucket key with
        | some msg => simp [hf] at h
        | none => exact ⟨key, resp, rfl, rfl, rfl⟩

/-- An iteration that fails: it returns an error, after no effect, after
the download alone, or after the download and the refused upload. -/
theorem transferFiles_body_fails (w : World) (bucket ghToken : GoString) (d : dependency)
    (h : transferSucceeds w bucket ghToken d = false) :
    ∃ err, (transferFiles.body w bucket ghToken d).2.2 = some err ∧
      (transferFiles.body w bucket ghToken d).1 = w ∧
      ((transferFiles.body w bucket ghToken d).2.1 = [] ∨
        (transferFiles.body w bucket ghToken d).2.1 = [.get d.Uri] ∨
        (transferFiles.body w bucket ghToken d).2.1 = transferEvents bucket d) := by
  unfold transferSucceeds at h
  rw [transferFiles_body_eq] at h ⊢
  unfold transferEvents
  cases hk : storageKey d with
  | error err => exact ⟨err, rfl, rfl, Or.inl rfl⟩
  | ok key =>
    simp only [hk] at h ⊢
    cases hr : http.NewRequest (utf8 "GET") d.Uri with
    | error err => exact ⟨err, rfl, rfl, Or.inl rfl⟩
    | ok req =>
      simp only [hr] at h ⊢
      cases hd : w.httpDo (downloadRequest ghToken d) with
      | error msg => exact ⟨_, rfl, rfl, Or.inr (Or.inl rfl)⟩
      | ok resp =>
        simp only [hd] at h ⊢
        cases hf : w.putFault bucket key with
        | some msg => exact ⟨_, rfl, rfl, Or.inr (Or.inr rfl)⟩
        | none => simp [hf] at h

/-- The transfer loop changes the bucket contents only. -/
theorem transferFiles_network (bucket ghToken : GoString) (deps : List dependency) :
    ∀ w : World, sameNetwork (transferFiles w bucket ghToken deps).1 w := by
  induction deps with
  | nil => intro w; exact sameNetwork_refl w
  | cons d deps ih =>
    intro w
    have hb := transferFiles_body_network w bucket ghToken d
    unfold transferFiles
    rcases hbody : transferFiles.body w bucket ghToken d with ⟨w1, evs, _ | err⟩
    · rw [hbody] at hb
      exact sameNetwork_trans (ih w1) hb
    · rw [hbody] at hb
      exact hb

/-- The transfer loop over descriptors whose transfers all succeed. -/
theorem transferFiles_all_succeed (bucket ghToken : GoString) (deps : List dependency) :
    ∀ w : World, (∀ p ∈ deps, transferSucceeds w bucket ghToken p = true) →
      (transferFiles w bucket ghToken deps).2 = (deps.flatMap (transferEvents bucket), none) := by
  induction deps with
  | nil => intro w _; rfl
  | cons d deps ih =>
    intro w h
    have hd : transferSucceeds w bucket ghToken d = true := h d (List.mem_cons_self _ _)
    obtain ⟨key, resp, _, _, hbody⟩ := transferFiles_body_succeeds w bucket ghToken d hd
    have hnet := transferFiles_body_network w bucket ghToken d
    unfold transferFiles
    rw [hbody] at hnet ⊢
    simp only []
    have hrest : ∀ p ∈ deps, transferSucceeds _ bucket ghToken p = true := fun p hp => by
      rw [transferSucceeds_congr _ w bucket ghToken p hnet]
      exact h p (List.mem_cons_of_mem _ hp)
    rw [ih _ hrest]
    simp

/-- The transfer loop stops at the first descriptor whose transfer fails. -/
theorem transferFiles_first_failure (bucket ghToken : GoString) (pre : List dependency)
    (d : dependency) (post : List dependency) :
    ∀ w : World, (∀ p ∈ pre, transferSucceeds w bucket ghToken p = true) →
      transferSucceeds w bucket ghToken d = false →
      (transferFiles w bucket ghToken (pre ++ d :: post)).2 =
        (pre.flatMap (transferEvents bucket) ++ (transferFiles.body w bucket ghToken d).2.1,
          (transferFiles.body w bucket ghToken d).2.2) := by
  induction pre with
  | nil =>
    intro w _ hd
    obtain ⟨err, herr, _, _⟩ := transferFiles_body_fails w bucket ghToken d hd
    simp only [List.nil_append, List.flatMap_nil]
    unfold transferFiles
    rcases hbody : transferFiles.body w bucket ghToken d with ⟨w1, evs, _ | e⟩
    · rw [hbody] at herr; cases herr
    · rfl
  | cons p pre ih =>
    intro w h hd
    have hp : transferSucceeds w bucket ghToken p = true := h p (List.mem_cons_self _ _)
    obtain ⟨key, resp, _, _, hbody⟩ := transferFiles_body_succeeds w bucket ghToken p hp
    have hnet := transferFiles_body_network w bucket ghToken p
    rcases hb : transferFiles.body w bucket ghToken p with ⟨w1, evs, err⟩
    rw [hb] at hbody hnet
    simp only [Prod.mk.injEq] at hbody
    obtain ⟨_, hev, herr⟩ := hbody
    subst hev herr
    simp only [List.cons_append]
    unfold transferFiles
    rw [hb]
    simp only []
    have hrest : ∀ q ∈ pre, transferSucceeds w1 bucket ghToken q = true := fun q hq => by
      rw [transferSucceeds_congr w1 w bucket ghToken q hnet]
      exact h q (List.mem_cons_of_mem _ hq)
    have hd1 : transferSucceeds w1 bucket ghToken d = false := by
      rw [transferSucceeds_congr w1 w bucket ghToken d hnet]
      exact hd
    rw [ih w1 hrest hd1, transferFiles_body_congr w1 w bucket ghToken d hnet]
    simp

/-- A run of the transfer loop that returns no error made every transfer. -/
theorem transferFiles_ok_succeeds (bucket ghToken : GoString) (deps : List dependency) :
    ∀ w : World, (transferFiles w bucket ghToken deps).2.2 = none →
      ∀ p ∈ deps, transferSucceeds w bucket ghToken p = true := by
  induction deps with
  | nil => intro w _ p hp; simp at hp
  | cons d deps ih =>
    intro w h
    have hnet := transferFiles_body_network w bucket ghToken d
    unfold transferFiles at h
    rcases hbody : transferFiles.body w bucket ghToken d with ⟨w1, evs, _ | err⟩
    · rw [hbody] at h hnet
      simp only [] at h
      have hd : transferSucceeds w bucket ghToken d = true := by
        unfold transferSucceeds; rw [hbody]; rfl
      intro p hp
      rcases List.mem_cons.mp hp with hpd | hpd
      · subst hpd; exact hd
      · rw [← transferSucceeds_congr w1 w bucket ghToken p hnet]
        exact ih w1 h p hpd
    · rw [hbody] at h
      simp at h

/-! ## Lemmas on the bucket contents -/

theorem find_filter_ne (objects : List ((GoString × GoString) × oss.Object))
    (bucket key : GoString) (x : GoString × GoString) (h : (bucket, key) ≠ x) :
    World.find (objects.filter fun e => e.1 ≠ x) bucket key = World.find objects bucket key := by
  induction objects with
  | nil => rfl
  | cons e rest ih =>
    rw [List.filter_cons]
    by_cases hx : e.1 = x
    · have hne : ¬ e.1 = (bucket, key) := fun hek => h (hek ▸ hx)
      rw [if_neg (by simp [hx]), ih, World.find, if_neg hne]
    · rw [if_pos (by simp [hx]), World.find, World.find, ih]

/-- After an upload the key holds the uploaded object. -/
theorem find_put_same (objects : List ((GoString × GoString) × oss.Object))
    (bucket key : GoString) (o : oss.Object) :
    World.find (((bucket, key), o) :: objects.filter fun e => e.1 ≠ (bucket, key)) bucket key
      = some o := by
  simp [World.find]

/-- An upload leaves the other keys as they were. -/
theorem find_put_other (objects : List ((GoString × GoString) × oss.Object))
    (bucket key other : GoString) (o : oss.Object) (h : other ≠ key) :
    World.find (((bucket, key), o) :: objects.filter fun e => e.1 ≠ (bucket, key)) bucket other
      = World.find objects bucket other := by
  have hne : (bucket, other) ≠ (bucket, key) := fun he => h (Prod.mk.inj he).2
  have hne2 : (bucket, key) ≠ (bucket, other) := fun he => hne he.symm
  rw [World.find]
  simp only [hne2, if_false]
  exact find_filter_ne objects bucket other (bucket, key) hne

/-- The transfer loop on a concatenation: the first part, then, unless it
failed, the second part in the world the first part left. -/
theorem transferFiles_append (bucket ghToken : GoString) (l1 l2 : List dependency) :
    ∀ w : World, transferFiles w bucket ghToken (l1 ++ l2) =
      match transferFiles w bucket ghToken l1 with
      | (w1, tr1, some err) => (w1, tr1, some err)
      | (w1, tr1, none) =>
        ((transferFiles w1 bucket ghToken l2).1, tr1 ++ (transferFiles w1 bucket ghToken l2).2.1,
          (transferFiles w1 bucket ghToken l2).2.2) := by
  induction l1 with
  | nil => intro w; simp [transferFiles]
  | cons d l1 ih =>
    intro w
    simp only [List.cons_append]
    rw [transferFiles, transferFiles]
    rcases hb : transferFiles.body w bucket ghToken d with ⟨w1, evs, _ | err⟩
    · simp only []
      rw [ih w1]
      rcases hr : transferFiles w1 bucket ghToken l1 with ⟨w2, tr2, _ | err2⟩
      · simp
      · simp
    · rfl

/-- What the bucket holds at a key after a run of the transfer loop that
returned no error: what it held before, when no transferred descriptor has
that key; otherwise the upload of one of the transferred descriptors with that
key. -/
theorem transferFiles_objects (bucket ghToken : GoString) (F : List dependency) :
    ∀ w : World, (transferFiles w bucket ghToken F).2.2 = none → ∀ key : GoString,
      (World.find (transferFiles w bucket ghToken F).1.objects bucket key
          = World.find w.objects bucket key ∧ ∀ g ∈ F, storageKey g ≠ .ok key) ∨
      (∃ g ∈ F, storageKey g = .ok key ∧ ∃ o,
        World.find (transferFiles w bucket ghToken F).1.objects bucket key = some o ∧
        o.Metadata = [(sha256MetadataKey, g.Sha256)]) := by
  induction F with
  | nil => intro w _ key; left; exact ⟨rfl, by simp⟩
  | cons f F ih =>
    intro w h key
    have hf : transferSucceeds w bucket ghToken f = true :=
      transferFiles_ok_succeeds bucket ghToken (f :: F) w h f (List.mem_cons_self _ _)
    obtain ⟨kf, resp, hkf, _, hbody⟩ := transferFiles_body_succeeds w bucket ghToken f hf
    rw [transferFiles, hbody] at h ⊢
    simp only [] at h ⊢
    rcases ih _ h key with ⟨hsame, hnone⟩ | ⟨g, hg, hgk, o, ho, hmeta⟩
    · by_cases hk : key = kf
      · right
        subst hk
        refine ⟨f, List.mem_cons_self _ _, hkf,
          ⟨resp.Body, [(sha256MetadataKey, f.Sha256)]⟩, ?_, rfl⟩
        rw [hsame]
        exact find_put_same w.objects bucket key _
      · left
        refine ⟨?_, ?_⟩
        · rw [hsame]
          exact find_put_other w.objects bucket kf key _ hk
        · intro g hg
          rcases List.mem_cons.mp hg with hgf | hgF
          · subst hgf
            rw [hkf]
            intro he
            exact hk (Except.ok.inj he).symm
          · exact hnone g hgF
    · right
      exact ⟨g, List.mem_cons_of_mem _ hg, hgk, o, ho, hmeta⟩

/-! ## The staleness filter -/

theorem needsTransfer_iff (w : World) (bucket : GoString) (d : dependency) :
    needsTransfer w bucket d = true ↔
      ∃ key, storageKey d = .ok key ∧
        ((∃ msg, oss.HeadObject w bucket key = .error msg ∧ isNoSuchKey msg = true) ∨
          ∃ metadata, oss.HeadObject w bucket key = .ok metadata ∧
            mapIndex metadata sha256MetadataKey ≠ d.Sha256) := by
  unfold needsTransfer
  cases hk : storageKey d with
  | error err => simp
  | ok key =>
    simp only []
    cases hh : oss.HeadObject w bucket key with
    | error msg => simp [hh]
    | ok metadata => simp [hh]

/-- C1: when every key resolves and every probe succeeds or fails with the
not-found condition, `filterFiles` returns without error exactly the
descriptors of `deps`, in their order, whose probe was not-found or whose
stored `sha256` metadata value differs from their `Sha256`; the descriptors
whose stored hash equals their `Sha256` are left out.  (The returned
descriptors carry the memoized URL; as manifest entries they are those of
`deps`.) -/
theorem filterFiles_returns_stale_subsequence (w : World) (bucket : GoString)
    (deps : List dependency) (h : ∀ d ∈ deps, probeAnswers w bucket d = true) :
    ∃ F, (filterFiles w bucket deps).2 = .ok F ∧
      F = (deps.filter (needsTransfer w bucket)).map dependency.memo ∧
      F.map dependency.entry = (deps.filter (needsTransfer w bucket)).map dependency.entry ∧
      List.Sublist (F.map dependency.entry) (deps.map dependency.entry) ∧
      ∀ d ∈ deps, (needsTransfer w bucket d = true ↔
        ∃ key, storageKey d = .ok key ∧
          ((∃ msg, oss.HeadObject w bucket key = .error msg ∧ isNoSuchKey msg = true) ∨
            ∃ metadata, oss.HeadObject w bucket key = .ok metadata ∧
              mapIndex metadata sha256MetadataKey ≠ d.Sha256)) := by
  have hentry : ((deps.filter (needsTransfer w bucket)).map dependency.memo).map dependency.entry
      = (deps.filter (needsTransfer w bucket)).map dependency.entry := by
    rw [List.map_map]
    apply List.map_congr_left
    intro d _
    exact memo_entry d
  refine ⟨(deps.filter (needsTransfer w bucket)).map dependency.memo, ?_, rfl, hentry, ?_, ?_⟩
  · rw [filterFiles_of_answers w bucket deps h]
  · rw [hentry]
    exact List.Sublist.map _ (List.filter_sublist _)
  · intro d _
    exact needsTransfer_iff w bucket d

theorem filterFiles_returns_stale_subsequence_witness :
    (∀ d ∈ [exPlus, exCurrent, exStale, exBareHashed], probeAnswers exWorld exBucket d = true) ∧
    ∃ F, (filterFiles exWorld exBucket [exPlus, exCurrent, exStale, exBareHashed]).2 = .ok F ∧
      F = ([exPlus, exCurrent, exStale, exBareHashed].filter
            (needsTransfer exWorld exBucket)).map dependency.memo ∧
      F.map dependency.entry = ([exPlus, exCurrent, exStale, exBareHashed].filter
            (needsTransfer exWorld exBucket)).map dependency.entry ∧
      List.Sublist (F.map dependency.entry)
        ([exPlus, exCurrent, exStale, exBareHashed].map dependency.entry) ∧
      ∀ d ∈ [exPlus, exCurrent, exStale, exBareHashed],
        (needsTransfer exWorld exBucket d = true ↔
        ∃ key, storageKey d = .ok key ∧
          ((∃ msg, oss.HeadObject exWorld exBucket key = .error msg ∧ isNoSuchKey msg = true) ∨
            ∃ metadata, oss.HeadObject exWorld exBucket key = .ok metadata ∧
              mapIndex metadata sha256MetadataKey ≠ d.Sha256)) :=
  ⟨by decide, filterFiles_returns_stale_subsequence exWorld exBucket _ (by decide)⟩

/-- C3, as stated, fails: the probe is refused (access denied) although
the object is stored with the descriptor's hash; the text of the error names
the key `NoSuchKey.bin`, so the test of `filterFiles` takes it for the
not-found condition, and the descriptor is returned as stale, without error. -/
theorem filterFiles_named_refusal_counterexample :
    storageKey exNamed = .ok (utf8 "NoSuchKey.bin") ∧
    (World.find exRefusing.objects exBucket (utf8 "NoSuchKey.bin")).map (fun o => o.Metadata)
      = some [(sha256MetadataKey, exNamed.Sha256)] ∧
    exRefusing.headFault exBucket (utf8 "NoSuchKey.bin") = some exNamedDenied ∧
    oss.HeadObject exRefusing exBucket (utf8 "NoSuchKey.bin") = .error exNamedDenied ∧
    filterFiles exRefusing exBucket [exNamed]
      = ([.head exBucket (utf8 "NoSuchKey.bin")], .ok [exNamed.memo]) := by
  decide

/-- C3, amended: when the probe of a descriptor fails with an error whose
text does not hold `NoSuchKey`, `filterFiles` returns an error and no list;
when the descriptors before it were processed without error, the error is the
wrapped error of that probe, returned right after the probe. -/
theorem filterFiles_aborts_on_probe_error (w : World) (bucket : GoString)
    (pre : List dependency) (d : dependency) (post : List dependency) (key msg : GoString)
    (hk : storageKey d = .ok key) (hh : oss.HeadObject w bucket key = .error msg)
    (hn : isNoSuchKey msg = false) :
    (∃ err, (filterFiles w bucket (pre ++ d :: post)).2 = .error err) ∧
    ((∀ p ∈ pre, probeAnswers w bucket p = true) →
      filterFiles w bucket (pre ++ d :: post) =
        (pre.flatMap (probeEvents bucket) ++ [.head bucket key],
          .error (.objectMeta (.text msg)))) := by
  have hd : probeAnswers w bucket d = false := by
    unfold probeAnswers
    simp [hk, hh, hn]
  have hev : probeEvents bucket d = [.head bucket key] := by
    unfold probeEvents
    simp [hk]
  have herr : filterError w bucket d = .objectMeta (.text msg) := by
    unfold filterError
    simp [hk, hh]
  constructor
  · obtain ⟨pre1, d1, post1, _, _, _, heq⟩ :=
      filterFiles_fails w bucket (pre ++ d :: post) ⟨d, by simp, hd⟩
    exact ⟨_, by rw [heq]⟩
  · intro hpre
    unfold filterFiles
    rw [filterFiles_loop_stops w bucket pre d post [] hpre hd, hev, herr]

theorem filterFiles_aborts_on_probe_error_witness :
    storageKey exDenied = .ok (utf8 "denied.bin") ∧
    oss.HeadObject exWorld exBucket (utf8 "denied.bin") = .error exAccessDenied ∧
    isNoSuchKey exAccessDenied = false ∧
    (∃ err, (filterFiles exWorld exBucket ([exStale] ++ exDenied :: [exPlus])).2 = .error err) ∧
    ((∀ p ∈ [exStale], probeAnswers exWorld exBucket p = true) →
      filterFiles exWorld exBucket ([exStale] ++ exDenied :: [exPlus]) =
        ([exStale].flatMap (probeEvents exBucket) ++ [.head exBucket (utf8 "denied.bin")],
          .error (.objectMeta (.text exAccessDenied)))) :=
  ⟨by decide, by decide, by decide,
    filterFiles_aborts_on_probe_error exWorld exBucket [exStale] exDenied [exPlus]
      (utf8 "denied.bin") exAccessDenied (by decide) (by decide) (by decide)⟩

theorem mapIndex_absent (metadata : List (GoString × GoString)) (key : GoString)
    (h : ∀ v, (key, v) ∉ metadata) : mapIndex metadata key = [] := by
  induction metadata with
  | nil => rfl
  | cons kv rest ih =>
    have hne : ¬ kv.1 = key := by
      intro he
      apply h kv.2
      rw [← he]
      exact List.mem_cons_self _ _
    rw [mapIndex, if_neg hne]
    exact ih fun v hv => h v (List.mem_cons_of_mem _ hv)

/-- C7, as stated, fails: a descriptor with an empty `Sha256` whose stored
object has no `sha256` metadata is left out by `filterFiles`, because the
missing entry reads as the empty string. -/
theorem filterFiles_bare_object_counterexample :
    exBare.Sha256 = [] ∧
    storageKey exBare = .ok (utf8 "bare.bin") ∧
    oss.HeadObject exWorld exBucket (utf8 "bare.bin") = .ok [] ∧
    filterFiles exWorld exBucket [exBare] = ([.head exBucket (utf8 "bare.bin")], .ok []) := by
  decide

/-- C7, amended: a descriptor whose stored object has no `sha256` metadata
entry is included by `filterFiles` when its `Sha256` is not empty, and a
descriptor whose stored object has an entry with another value is included
whatever its `Sha256` is (every other probe answering). -/
theorem filterFiles_includes_unhashed_object (w : World) (bucket : GoString)
    (deps : List dependency) (d : dependency) (key : GoString)
    (metadata : List (GoString × GoString))
    (hall : ∀ p ∈ deps, probeAnswers w bucket p = true) (hd : d ∈ deps)
    (hk : storageKey d = .ok key) (hh : oss.HeadObject w bucket key = .ok metadata)
    (hmd : ((∀ v, (sha256MetadataKey, v) ∉ metadata) ∧ d.Sha256 ≠ []) ∨
      ((∃ v, (sha256MetadataKey, v) ∈ metadata) ∧
        mapIndex metadata sha256MetadataKey ≠ d.Sha256)) :
    ∃ F, (filterFiles w bucket deps).2 = .ok F ∧ d.memo ∈ F ∧
      d.entry ∈ F.map dependency.entry := by
  have hfilter := filterFiles_of_answers w bucket deps hall
  have hne : mapIndex metadata sha256MetadataKey ≠ d.Sha256 := by
    rcases hmd with ⟨habs, hsha⟩ | ⟨_, hdiff⟩
    · rw [mapIndex_absent metadata sha256MetadataKey habs]
      exact fun he => hsha he.symm
    · exact hdiff
  have hneeds : needsTransfer w bucket d = true :=
    (needsTransfer_iff w bucket d).mpr ⟨key, hk, Or.inr ⟨metadata, hh, hne⟩⟩
  have hmem : d.memo ∈ (deps.filter (needsTransfer w bucket)).map dependency.memo :=
    List.mem_map_of_mem _ (List.mem_filter.mpr ⟨hd, hneeds⟩)
  refine ⟨_, by rw [hfilter], hmem, ?_⟩
  rw [← memo_entry d]
  exact List.mem_map_of_mem _ hmem

theorem filterFiles_includes_unhashed_object_witness :
    (∀ p ∈ [exCurrent, exBareHashed], probeAnswers exWorld exBucket p = true) ∧
    exBareHashed ∈ [exCurrent, exBareHashed] ∧
    storageKey exBareHashed = .ok (utf8 "bare.bin") ∧
    oss.HeadObject exWorld exBucket (utf8 "bare.bin") = .ok [] ∧
    ∃ F, (filterFiles exWorld exBucket [exCurrent, exBareHashed]).2 = .ok F ∧
      exBareHashed.memo ∈ F ∧ exBareHashed.entry ∈ F.map dependency.entry :=
  ⟨by decide, by decide, by decide, by decide,
    filterFiles_includes_unhashed_object exWorld exBucket [exCurrent, exBareHashed] exBareHashed
      (utf8 "bare.bin") [] (by decide) (by decide) (by decide) (by decide)
      (Or.inl ⟨fun v hv => by simp at hv, by decide⟩)⟩

/-- C9, as stated, fails: a descriptor whose `Uri` is a relative reference
is parsed, probed at the key made of its path, and included. -/
theorem filterFiles_relative_uri_counterexample :
    exRelative.Uri = utf8 "foo/bar.bin" ∧
    (url.Parse exRelative.Uri).map (fun u => (u.Scheme, u.Host, u.Path))
      = .ok ([], [], utf8 "foo/bar.bin") ∧
    filterFiles exWorld exBucket [exRelative] =
      ([.head exBucket (utf8 "foo/bar.bin")], .ok [exRelative.memo]) := by
  decide

/-- The filter loop, at a descriptor whose key does not resolve, fails
having issued probes for descriptors before it only. -/
theorem filterFiles_loop_key_error (w : World) (bucket : GoString) (pre : List dependency)
    (d : dependency) (post : List dependency) (err : GoError) (hk : storageKey d = .error err) :
    ∀ filtered : List dependency,
      (∃ e, (filterFiles.loop w bucket (pre ++ d :: post) filtered).2 = .error e) ∧
      (filterFiles.loop w bucket (pre ++ d :: post) filtered).1
        <+: pre.flatMap (probeEvents bucket) := by
  have hd : probeAnswers w bucket d = false := by
    unfold probeAnswers
    simp [hk]
  have hev : probeEvents bucket d = [] := by
    unfold probeEvents
    simp [hk]
  induction pre with
  | nil =>
    intro filtered
    rw [filterFiles_loop_stops w bucket [] d post filtered (by simp) hd, hev]
    exact ⟨⟨_, rfl⟩, by simp⟩
  | cons p pre ih =>
    intro filtered
    simp only [List.cons_append, List.flatMap_cons]
    unfold filterFiles.loop
    by_cases hp : probeAnswers w bucket p = true
    · rw [filterFiles_body_answers w bucket filtered p hp]
      simp only []
      obtain ⟨herr, hpre⟩ := ih (filtered ++ if needsTransfer w bucket p then [p.memo] else [])
      exact ⟨herr, (List.prefix_append_right_inj _).mpr hpre⟩
    · have hp2 : probeAnswers w bucket p = false := by simpa using hp
      rw [filterFiles_body_stops w bucket filtered p hp2]
      exact ⟨⟨_, rfl⟩, List.prefix_append _ _⟩

/-- C9, amended: when `url.Parse` rejects the `Uri` of a descriptor,
`filterFiles` returns an error and no list, and the probes it issued are
probes of descriptors before that one; when those were processed without
error, the error returned is the one of `url.Parse`. -/
theorem filterFiles_aborts_on_unparsable_uri (w : World) (bucket : GoString)
    (pre : List dependency) (d : dependency) (post : List dependency) (err : GoError)
    (hc : cacheOk d = true) (hp : url.Parse d.Uri = .error err) :
    (∃ e, (filterFiles w bucket (pre ++ d :: post)).2 = .error e) ∧
    (filterFiles w bucket (pre ++ d :: post)).1 <+: pre.flatMap (probeEvents bucket) ∧
    ((∀ p ∈ pre, probeAnswers w bucket p = true) →
      filterFiles w bucket (pre ++ d :: post) = (pre.flatMap (probeEvents bucket), .error err)) := by
  have hk : storageKey d = .error err := by
    rw [storageKey_eq_keyOfUri d hc]
    unfold keyOfUri
    simp [hp]
  obtain ⟨herr, hpre⟩ := filterFiles_loop_key_error w bucket pre d post err hk []
  refine ⟨herr, hpre, ?_⟩
  intro hall
  have hd : probeAnswers w bucket d = false := by
    unfold probeAnswers
    simp [hk]
  unfold filterFiles
  rw [filterFiles_loop_stops w bucket pre d post [] hall hd]
  unfold probeEvents filterError
  simp [hk]

theorem filterFiles_aborts_on_unparsable_uri_witness :
    cacheOk exBadEscape = true ∧
    url.Parse exBadEscape.Uri
      = .error (.urlError (utf8 "parse") (utf8 "https://host/%zz") (.escape (utf8 "%zz"))) ∧
    (∃ e, (filterFiles exWorld exBucket ([exStale] ++ exBadEscape :: [exPlus])).2 = .error e) ∧
    (filterFiles exWorld exBucket ([exStale] ++ exBadEscape :: [exPlus])).1
      <+: [exStale].flatMap (probeEvents exBucket) ∧
    ((∀ p ∈ [exStale], probeAnswers exWorld exBucket p = true) →
      filterFiles exWorld exBucket ([exStale] ++ exBadEscape :: [exPlus]) =
        ([exStale].flatMap (probeEvents exBucket),
          .error (.urlError (utf8 "parse") (utf8 "https://host/%zz") (.escape (utf8 "%zz"))))) :=
  ⟨by decide, by decide,
    filterFiles_aborts_on_unparsable_uri exWorld exBucket [exStale] exBadEscape [exPlus] _
      (by decide) (by decide)⟩

/-! ## The storage key -/

theorem Cut_absent (s : GoString) (sep : Nat) (h : sep ∉ s) :
    strings.Cut s sep = (s, [], false) := by
  induction s with
  | nil => rfl
  | cons c s ih =>
    have hc : ¬ c = sep := fun he => h (he ▸ List.mem_cons_self _ _)
    rw [strings.Cut, if_neg hc, ih (fun hm => h (List.mem_cons_of_mem _ hm))]

theorem unescapeCheck_query_no_percent (s : GoString) :
    37 ∉ s → url.unescapeCheck .encodeQueryComponent s = none := by
  induction s with
  | nil => intro _; rfl
  | cons c s ih =>
    intro h37
    have hc37 : c ≠ 37 := fun he => h37 (he ▸ List.mem_cons_self _ _)
    have hs := ih (fun hm => h37 (List.mem_cons_of_mem _ hm))
    unfold url.unescapeCheck
    by_cases hc43 : c = 43 <;> simp [hc37, hc43, hs]

theorem unescapeBuild_query_no_percent (s : GoString) :
    37 ∉ s → url.unescapeBuild .encodeQueryComponent s = s.map plusToSpace := by
  induction s with
  | nil => intro _; rfl
  | cons c s ih =>
    intro h37
    have hc37 : c ≠ 37 := fun he => h37 (he ▸ List.mem_cons_self _ _)
    have hs := ih (fun hm => h37 (List.mem_cons_of_mem _ hm))
    unfold url.unescapeBuild
    by_cases hc43 : c = 43 <;> simp [hc37, hc43, hs, plusToSpace]

/-- On a text without `%`, `url.QueryUnescape` replaces every `+` by a space
and changes nothing else. -/
theorem QueryUnescape_no_percent (s : GoString) (h37 : 37 ∉ s) :
    url.QueryUnescape s = .ok (s.map plusToSpace) := by
  unfold url.QueryUnescape url.unescape
  rw [unescapeCheck_query_no_percent s h37, unescapeBuild_query_no_percent s h37]

/-- The parse of an absolute URL `https://host/<rest>`, where `rest` has no
`#`, no `?` and no control byte and its escapes are well formed: the path is
`/` followed by `rest` with every `%XX` decoded. -/
theorem Parse_https_host (rest : GoString)
    (hclean : ∀ b ∈ rest, b ≠ 35 ∧ b ≠ 63 ∧ 32 ≤ b ∧ b ≠ 127)
    (hesc : url.unescapeCheck .encodePath rest = none) :
    url.Parse (utf8 "https://host/" ++ rest) =
      .ok { Scheme := utf8 "https", Host := utf8 "host",
            Path := 47 :: url.unescapeBuild .encodePath rest } := by
  have hpre : utf8 "https://host/"
      = [104, 116, 116, 112, 115, 58, 47, 47, 104, 111, 115, 116, 47] := by
    decide
  have hs : utf8 "https" = [104, 116, 116, 112, 115] := by decide
  have hh : utf8 "host" = [104, 111, 115, 116] := by decide
  rw [hpre, hs, hh]
  simp only [List.cons_append, List.nil_append]
  have h35 : 35 ∉ rest := fun hm => (hclean 35 hm).1 rfl
  have h63 : 63 ∉ rest := fun hm => (hclean 63 hm).2.1 rfl
  have hcut35 : strings.Cut (104 :: 116 :: 116 :: 112 :: 115 :: 58 :: 47 :: 47 :: 104 :: 111
      :: 115 :: 116 :: 47 :: rest) 35 = (104 :: 116 :: 116 :: 112 :: 115 :: 58 :: 47 :: 47 :: 104
      :: 111 :: 115 :: 116 :: 47 :: rest, [], false) := by
    apply Cut_absent
    simp [h35]
  have hcut63 : strings.Cut (47 :: 47 :: 104 :: 111 :: 115 :: 116 :: 47 :: rest) 63
      = (47 :: 47 :: 104 :: 111 :: 115 :: 116 :: 47 :: rest, [], false) := by
    apply Cut_absent
    simp [h63]
  have hctl : url.stringContainsCTLByte (104 :: 116 :: 116 :: 112 :: 115 :: 58 :: 47 :: 47 :: 104
      :: 111 :: 115 :: 116 :: 47 :: rest) = false := by
    simp only [url.stringContainsCTLByte, List.any_cons]
    simp
    intro b hb
    have := hclean b hb
    omega
  have hcount : strings.Count (47 :: 47 :: 104 :: 111 :: 115 :: 116 :: 47 :: rest) 63 = 0 := by
    simp [strings.Count, List.count_cons, List.count_eq_zero.mpr h63]
  have hscheme : url.getScheme (104 :: 116 :: 116 :: 112 :: 115 :: 58 :: 47 :: 47 :: 104 :: 111
      :: 115 :: 116 :: 47 :: rest)
      = .ok ([104, 116, 116, 112, 115], 47 :: 47 :: 104 :: 111 :: 115 :: 116 :: 47 :: rest) := by
    rfl
  have hauth : url.parseAuthority [104, 111, 115, 116] = .ok (none, [104, 111, 115, 116]) := by
    decide
  have hunesc : url.unescape (47 :: rest) .encodePath
      = .ok (47 :: url.unescapeBuild .encodePath rest) := by
    unfold url.unescape
    have hc : url.unescapeCheck .encodePath (47 :: rest) = none := by
      unfold url.unescapeCheck
      simp [hesc]
    have hb : url.unescapeBuild .encodePath (47 :: rest)
        = 47 :: url.unescapeBuild .encodePath rest := by
      conv_lhs => unfold url.unescapeBuild
      simp
    rw [hc, hb]
  unfold url.Parse
  rw [hcut35]
  simp only []
  unfold url.parse
  rw [hctl, hscheme]
  simp [hcut63, hcount, strings.HasPrefix, strings.ToLower, hauth, hunesc, List.takeWhile,
    List.dropWhile]

/-- C2, as stated, fails: for the descriptor of the end-to-end scenario the
path decoded by `url.Parse` is `/x+y.bin`, and `resolvePath` decodes it once
more, turning the `+` into a space: the key probed is `x y.bin`, not
`x+y.bin`. -/
theorem storageKey_plus_counterexample :
    exPlus.Uri = utf8 "https://host/x%2By.bin" ∧
    (url.Parse exPlus.Uri).map (fun u => u.Path) = .ok (utf8 "/x+y.bin") ∧
    storageKey exPlus = .ok (utf8 "x y.bin") ∧
    storageKey exPlus ≠ .ok (utf8 "x+y.bin") ∧
    (filterFiles exWorld exBucket [exPlus]).1 = [.head exBucket (utf8 "x y.bin")] := by
  decide

/-- C2, amended: for a descriptor whose `Uri` parses and whose path, as
`url.Parse` percent-decoded it, holds no `%`, the storage key is that decoded
path with every `+` replaced by a space and one leading `/` removed when
there is one (what stands after a leading `/` is kept, a second `/`
included).  For a `Uri` of the form `https://host/<rest>` the decoded path is
`/` followed by `rest` with every `%XX` decoded, once.  For the `Uri`
`https://host/x%2By.bin` the key is `x y.bin`. -/
theorem storageKey_is_unescaped_path (d : dependency) (u : url.URL)
    (hc : cacheOk d = true) (hp : url.Parse d.Uri = .ok u) (h37 : 37 ∉ u.Path) :
    storageKey d = .ok (strings.TrimPrefix (u.Path.map plusToSpace) (utf8 "/")) ∧
    (∀ rest, u.Path = 47 :: rest → storageKey d = .ok (rest.map plusToSpace)) ∧
    ((∀ rest, u.Path ≠ 47 :: rest) → storageKey d = .ok (u.Path.map plusToSpace)) ∧
    (∀ rest, (∀ b ∈ rest, b ≠ 35 ∧ b ≠ 63 ∧ 32 ≤ b ∧ b ≠ 127) →
      url.unescapeCheck .encodePath rest = none →
      d.Uri = utf8 "https://host/" ++ rest →
      u.Path = 47 :: url.unescapeBuild .encodePath rest ∧
      storageKey d = .ok ((url.unescapeBuild .encodePath rest).map plusToSpace)) ∧
    (d.Uri = utf8 "https://host/x%2By.bin" → storageKey d = .ok (utf8 "x y.bin")) := by
  have hslash : utf8 "/" = [47] := by decide
  have hkey : storageKey d
      = .ok (strings.TrimPrefix (u.Path.map plusToSpace) (utf8 "/")) := by
    rw [storageKey_eq_keyOfUri d hc]
    unfold keyOfUri resolvePath
    rw [hp]
    simp only []
    rw [QueryUnescape_no_percent u.Path h37]
  have hrest : ∀ rest, u.Path = 47 :: rest → storageKey d = .ok (rest.map plusToSpace) := by
    intro rest hpath
    rw [hkey, hpath, hslash]
    simp [strings.TrimPrefix, strings.HasPrefix, plusToSpace]
  refine ⟨hkey, hrest, ?_, ?_, ?_⟩
  · intro hno
    rw [hkey, hslash]
    cases hpath : u.Path with
    | nil => simp [strings.TrimPrefix, strings.HasPrefix]
    | cons c s =>
      have hc47 : c ≠ 47 := by
        intro he
        exact hno s (by rw [hpath, he])
      have hp47 : plusToSpace c ≠ 47 := by
        unfold plusToSpace
        split <;> omega
      simp [strings.TrimPrefix, strings.HasPrefix, hp47]
  · intro rest hclean hesc huri
    have hparse := Parse_https_host rest hclean hesc
    rw [← huri, hp] at hparse
    have hu := Except.ok.inj hparse
    have hpath : u.Path = 47 :: url.unescapeBuild .encodePath rest := by rw [hu]
    exact ⟨hpath, hrest _ hpath⟩
  · intro huri
    rw [storageKey_eq_keyOfUri d hc, huri]
    decide

theorem storageKey_is_unescaped_path_witness :
    cacheOk exPlus = true ∧
    url.Parse exPlus.Uri
      = .ok { Scheme := utf8 "https", Host := utf8 "host", Path := utf8 "/x+y.bin" } ∧
    37 ∉ utf8 "/x+y.bin" ∧
    storageKey exPlus = .ok (utf8 "x y.bin") ∧
    (storageKey exPlus = .ok (strings.TrimPrefix ((utf8 "/x+y.bin").map plusToSpace) (utf8 "/")) ∧
    (∀ rest, utf8 "/x+y.bin" = 47 :: rest → storageKey exPlus = .ok (rest.map plusToSpace)) ∧
    ((∀ rest, utf8 "/x+y.bin" ≠ 47 :: rest) →
      storageKey exPlus = .ok ((utf8 "/x+y.bin").map plusToSpace)) ∧
    (∀ rest, (∀ b ∈ rest, b ≠ 35 ∧ b ≠ 63 ∧ 32 ≤ b ∧ b ≠ 127) →
      url.unescapeCheck .encodePath rest = none →
      exPlus.Uri = utf8 "https://host/" ++ rest →
      utf8 "/x+y.bin" = 47 :: url.unescapeBuild .encodePath rest ∧
      storageKey exPlus = .ok ((url.unescapeBuild .encodePath rest).map plusToSpace)) ∧
    (exPlus.Uri = utf8 "https://host/x%2By.bin" → storageKey exPlus = .ok (utf8 "x y.bin"))) :=
  ⟨by decide, by decide, by decide, by decide,
    storageKey_is_unescaped_path exPlus
      { Scheme := utf8 "https", Host := utf8 "host", Path := utf8 "/x+y.bin" }
      (by decide) (by decide) (by decide)⟩

theorem cacheOk_of_reachable (d : dependency) (h : Reachable d) : cacheOk d = true := by
  induction h with
  | decoded ID Sha256 Uri Version => rfl
  | called d _ ih => exact cacheOk_memo d ih

/-- C8: in every state a descriptor reaches (decoded from the manifest,
then after any number of calls of `getObjectKey`) the memoized URL is empty or
the parse of its `Uri`.  So the outcome of the key resolution, a key or a
failure, is that of the `Uri` alone, and it is the same before and after a
call that filled the cache; two reachable descriptors with the same `Uri`
resolve alike; and every descriptor `filterFiles` returns is reachable, and
the key `transferFiles` uploads it to is the key `filterFiles` probed for
it. -/
theorem storageKey_function_of_uri (w : World) (bucket ghToken : GoString)
    (d1 d2 : dependency) (h1 : Reachable d1) (h2 : Reachable d2) :
    (d1.url = none ∨ ∃ u, d1.url = some u ∧ url.Parse d1.Uri = .ok u) ∧
    storageKey d1 = keyOfUri d1.Uri ∧
    storageKey d1.getObjectKey.2 = storageKey d1 ∧
    (d1.Uri = d2.Uri → storageKey d1 = storageKey d2) ∧
    (∀ deps F : List dependency, (∀ d ∈ deps, Reachable d) →
      (filterFiles w bucket deps).2 = .ok F →
      ∀ f ∈ F, Reachable f ∧ ∃ key, keyOfUri f.Uri = .ok key ∧ storageKey f = .ok key ∧
        Event.head bucket key ∈ (filterFiles w bucket deps).1 ∧
        ∀ w1 : World, ∀ e ∈ (transferFiles.body w1 bucket ghToken f).2.1,
          e = .get f.Uri ∨ e = .put bucket key f.Sha256) := by
  have hc1 := cacheOk_of_reachable d1 h1
  have hc2 := cacheOk_of_reachable d2 h2
  refine ⟨?_, storageKey_eq_keyOfUri d1 hc1, storageKey_memo d1, ?_, ?_⟩
  · cases hu : d1.url with
    | none => exact Or.inl rfl
    | some u =>
      right
      refine ⟨u, rfl, ?_⟩
      simpa [cacheOk, hu] using hc1
  · intro huri
    rw [storageKey_eq_keyOfUri d1 hc1, storageKey_eq_keyOfUri d2 hc2, huri]
  · intro deps F hreach hF f hf
    have hall := filterFiles_ok_answers w bucket deps F hF
    have hfilter := filterFiles_of_answers w bucket deps hall
    have hFeq : F = (deps.filter (needsTransfer w bucket)).map dependency.memo := by
      rw [hfilter] at hF
      exact (Except.ok.inj hF).symm
    have htrace : (filterFiles w bucket deps).1 = deps.flatMap (probeEvents bucket) := by
      rw [hfilter]
    rw [hFeq] at hf
    obtain ⟨d, hdmem, rfl⟩ := List.mem_map.mp hf
    have hd : d ∈ deps := (List.mem_filter.mp hdmem).1
    obtain ⟨key, hkey, hev⟩ := probeEvents_of_answers w bucket d (hall d hd)
    have hrm : Reachable d.memo := Reachable.called d (hreach d hd)
    have hcm := cacheOk_of_reachable d.memo hrm
    have hkm : storageKey d.memo = .ok key := by rw [storageKey_memo, hkey]
    refine ⟨hrm, key, ?_, hkm, ?_, ?_⟩
    · rw [← storageKey_eq_keyOfUri d.memo hcm, hkm]
    · rw [htrace]
      exact List.mem_flatMap.mpr ⟨d, hd, by rw [hev]; exact List.mem_singleton.mpr rfl⟩
    · intro w1 e he
      by_cases hs : transferSucceeds w1 bucket ghToken d.memo = true
      · obtain ⟨k2, resp, hk2, _, hbody⟩ :=
          transferFiles_body_succeeds w1 bucket ghToken d.memo hs
        rw [hbody] at he
        simp only [transferEvents, hkm] at he
        simpa using he
      · have hs2 : transferSucceeds w1 bucket ghToken d.memo = false := by simpa using hs
        obtain ⟨_, _, _, hevs⟩ := transferFiles_body_fails w1 bucket ghToken d.memo hs2
        rcases hevs with h0 | h1 | h2
        · rw [h0] at he; simp at he
        · rw [h1] at he; left; simpa using he
        · rw [h2] at he
          simp only [transferEvents, hkm] at he
          simpa using he

theorem storageKey_function_of_uri_witness :
    Reachable exBadEscape.getObjectKey.2 ∧ Reachable exBadEscape ∧
    storageKey exBadEscape
      = .error (.urlError (utf8 "parse") (utf8 "https://host/%zz") (.escape (utf8 "%zz"))) ∧
    ((exBadEscape.getObjectKey.2.url = none ∨ ∃ u, exBadEscape.getObjectKey.2.url = some u ∧
        url.Parse exBadEscape.getObjectKey.2.Uri = .ok u) ∧
    storageKey exBadEscape.getObjectKey.2 = keyOfUri exBadEscape.getObjectKey.2.Uri ∧
    storageKey exBadEscape.getObjectKey.2.getObjectKey.2 = storageKey exBadEscape.getObjectKey.2 ∧
    (exBadEscape.getObjectKey.2.Uri = exBadEscape.Uri →
      storageKey exBadEscape.getObjectKey.2 = storageKey exBadEscape) ∧
    (∀ deps F : List dependency, (∀ d ∈ deps, Reachable d) →
      (filterFiles exWorld exBucket deps).2 = .ok F →
      ∀ f ∈ F, Reachable f ∧ ∃ key, keyOfUri f.Uri = .ok key ∧ storageKey f = .ok key ∧
        Event.head exBucket key ∈ (filterFiles exWorld exBucket deps).1 ∧
        ∀ w1 : World, ∀ e ∈ (transferFiles.body w1 exBucket [] f).2.1,
          e = .get f.Uri ∨ e = .put exBucket key f.Sha256)) :=
  ⟨Reachable.called exBadEscape (Reachable.decoded _ _ _ _), Reachable.decoded _ _ _ _,
    by decide,
    storageKey_function_of_uri exWorld exBucket [] exBadEscape.getObjectKey.2 exBadEscape
      (Reachable.called exBadEscape (Reachable.decoded _ _ _ _)) (Reachable.decoded _ _ _ _)⟩

/-! ## The transfer executor -/

/-- C4: with the bucket as a map from key to body and metadata, and
`PutObject` replacing the entry of its key: right after the transfer step of
a descriptor succeeded (the descriptors before it having been transferred),
the bucket holds at the descriptor's storage key an object whose metadata
maps `sha256` to the descriptor's `Sha256`. -/
theorem transferFiles_records_sha256 (w : World) (bucket ghToken : GoString)
    (pre : List dependency) (d : dependency)
    (h : (transferFiles w bucket ghToken (pre ++ [d])).2.2 = none) :
    ∃ key o, storageKey d = .ok key ∧
      World.find (transferFiles w bucket ghToken (pre ++ [d])).1.objects bucket key = some o ∧
      o.Metadata = [(sha256MetadataKey, d.Sha256)] ∧
      mapIndex o.Metadata sha256MetadataKey = d.Sha256 := by
  rw [transferFiles_append] at h ⊢
  rcases hpre : transferFiles w bucket ghToken pre with ⟨w1, tr1, _ | err⟩
  · rw [hpre] at h
    simp only [] at h ⊢
    have hd : transferSucceeds w1 bucket ghToken d = true :=
      transferFiles_ok_succeeds bucket ghToken [d] w1 h d (List.mem_singleton.mpr rfl)
    obtain ⟨key, resp, hkey, _, hbody⟩ := transferFiles_body_succeeds w1 bucket ghToken d hd
    refine ⟨key, ⟨resp.Body, [(sha256MetadataKey, d.Sha256)]⟩, hkey, ?_, rfl, ?_⟩
    · rw [transferFiles, hbody]
      simp only [transferFiles]
      exact find_put_same w1.objects bucket key _
    · simp [mapIndex]
  · rw [hpre] at h
    simp at h

theorem transferFiles_records_sha256_witness :
    (transferFiles exWorld exBucket [] ([exPlus] ++ [exStale])).2.2 = none ∧
    ∃ key o, storageKey exStale = .ok key ∧
      World.find (transferFiles exWorld exBucket [] ([exPlus] ++ [exStale])).1.objects
        exBucket key = some o ∧
      o.Metadata = [(sha256MetadataKey, exStale.Sha256)] ∧
      mapIndex o.Metadata sha256MetadataKey = exStale.Sha256 :=
  ⟨by decide, transferFiles_records_sha256 exWorld exBucket [] [exPlus] exStale (by decide)⟩

/-- C5: when the transfers of the descriptors before the `k`-th succeed and
the transfer of the `k`-th fails, `transferFiles` returns an error, and its
trace is one download and one upload for each descriptor before the `k`-th,
in list order, followed by what was issued for the `k`-th (nothing, its
download, or its download and its refused upload): nothing is issued for the
descriptors after it.  When no transfer fails it returns `nil` after one
download and one upload per descriptor, in list order. -/
theorem transferFiles_stops_at_first_failure (w : World) (bucket ghToken : GoString)
    (pre : List dependency) (d : dependency) (post : List dependency)
    (hpre : ∀ p ∈ pre, transferSucceeds w bucket ghToken p = true) :
    (transferSucceeds w bucket ghToken d = false →
      ∃ err evs, (transferFiles w bucket ghToken (pre ++ d :: post)).2
          = (pre.flatMap (transferEvents bucket) ++ evs, some err) ∧
        (evs = [] ∨ evs = [.get d.Uri] ∨ evs = transferEvents bucket d)) ∧
    ((∀ p ∈ d :: post, transferSucceeds w bucket ghToken p = true) →
      (transferFiles w bucket ghToken (pre ++ d :: post)).2
        = ((pre ++ d :: post).flatMap (transferEvents bucket), none)) ∧
    (∀ p, transferSucceeds w bucket ghToken p = true →
      ∃ key, storageKey p = .ok key ∧
        transferEvents bucket p = [.get p.Uri, .put bucket key p.Sha256]) := by
  refine ⟨?_, ?_, ?_⟩
  · intro hd
    obtain ⟨err, herr, _, hevs⟩ := transferFiles_body_fails w bucket ghToken d hd
    refine ⟨err, (transferFiles.body w bucket ghToken d).2.1, ?_, hevs⟩
    rw [transferFiles_first_failure bucket ghToken pre d post w hpre hd, herr]
  · intro hrest
    apply transferFiles_all_succeed
    intro p hp
    rcases List.mem_append.mp hp with h | h
    · exact hpre p h
    · exact hrest p h
  · intro p hp
    obtain ⟨key, _, hkey, _, _⟩ := transferFiles_body_succeeds w bucket ghToken p hp
    exact ⟨key, hkey, by simp [transferEvents, hkey]⟩

theorem transferFiles_stops_at_first_failure_witness :
    (∀ p ∈ [exPlus, exStale], transferSucceeds exWorld exBucket [] p = true) ∧
    transferSucceeds exWorld exBucket [] exGone = false ∧
    (transferFiles exWorld exBucket [] ([exPlus, exStale] ++ exGone :: [exCurrent])).2
      = ([.get exPlus.Uri, .put exBucket (utf8 "x y.bin") exPlus.Sha256,
          .get exStale.Uri, .put exBucket (utf8 "stale.bin") exStale.Sha256,
          .get exGone.Uri], some (.text exConnectionRefused)) ∧
    ((transferSucceeds exWorld exBucket [] exGone = false →
      ∃ err evs, (transferFiles exWorld exBucket [] ([exPlus, exStale] ++ exGone :: [exCurrent])).2
          = ([exPlus, exStale].flatMap (transferEvents exBucket) ++ evs, some err) ∧
        (evs = [] ∨ evs = [.get exGone.Uri] ∨ evs = transferEvents exBucket exGone)) ∧
    ((∀ p ∈ exGone :: [exCurrent], transferSucceeds exWorld exBucket [] p = true) →
      (transferFiles exWorld exBucket [] ([exPlus, exStale] ++ exGone :: [exCurrent])).2
        = (([exPlus, exStale] ++ exGone :: [exCurrent]).flatMap (transferEvents exBucket), none)) ∧
    (∀ p, transferSucceeds exWorld exBucket [] p = true →
      ∃ key, storageKey p = .ok key ∧
        transferEvents exBucket p = [.get p.Uri, .put exBucket key p.Sha256])) :=
  ⟨by decide, by decide, by decide,
    transferFiles_stops_at_first_failure exWorld exBucket [] [exPlus, exStale] exGone [exCurrent]
      (by decide)⟩

/-- C10, as stated, fails: when the download fails, `transferFiles` returns
the error of the HTTP client as it is; it is not the wrapping transfer error,
and its text need not hold the `Uri` of the descriptor. -/
theorem transferFiles_download_error_counterexample :
    (transferFiles exWorld exBucket [] [exGone]).2
      = ([.get exGone.Uri], some (.text exConnectionRefused)) ∧
    (∀ cause, (transferFiles exWorld exBucket [] [exGone]).2.2
      ≠ some (.transfer exGone.Uri cause)) ∧
    strings.Contains exConnectionRefused exGone.Uri = false := by
  refine ⟨by decide, ?_, by decide⟩
  intro cause
  have h : (transferFiles exWorld exBucket [] [exGone]).2.2
      = some (.text exConnectionRefused) := by decide
  rw [h]
  intro he
  cases he

/-- C10, amended: when the transfer of a descriptor fails in the upload,
the error `transferFiles` returns is the transfer error that wraps the error
of `PutObject` and carries the descriptor's `Uri`; when it fails in the
download, or in the resolution of the key, the underlying error is returned
as it is. -/
theorem transferFiles_wraps_upload_error (w : World) (bucket ghToken : GoString)
    (pre : List dependency) (d : dependency) (post : List dependency)
    (hpre : ∀ p ∈ pre, transferSucceeds w bucket ghToken p = true)
    (hc : cacheOk d = true) :
    (∀ key resp msg, storageKey d = .ok key →
      w.httpDo (downloadRequest ghToken d) = .ok resp → w.putFault bucket key = some msg →
      (transferFiles w bucket ghToken (pre ++ d :: post)).2.2
        = some (.transfer d.Uri (.text msg))) ∧
    (∀ key msg, storageKey d = .ok key → w.httpDo (downloadRequest ghToken d) = .error msg →
      (transferFiles w bucket ghToken (pre ++ d :: post)).2.2 = some (.text msg)) ∧
    (∀ err, storageKey d = .error err →
      (transferFiles w bucket ghToken (pre ++ d :: post)).2.2 = some err) := by
  have hstop : ∀ err, (transferFiles.body w bucket ghToken d).2.2 = some err →
      (transferFiles w bucket ghToken (pre ++ d :: post)).2.2 = some err := by
    intro err herr
    have hd : transferSucceeds w bucket ghToken d = false := by
      unfold transferSucceeds
      rw [herr]
      rfl
    rw [transferFiles_first_failure bucket ghToken pre d post w hpre hd, herr]
  refine ⟨?_, ?_, ?_⟩
  · intro key resp msg hk hdo hput
    apply hstop
    obtain ⟨req, hreq, _⟩ := NewRequest_ok d key hk hc ghToken
    rw [transferFiles_body_eq]
    simp [hk, hreq, hdo, hput]
  · intro key msg hk hdo
    apply hstop
    obtain ⟨req, hreq, _⟩ := NewRequest_ok d key hk hc ghToken
    rw [transferFiles_body_eq]
    simp [hk, hreq, hdo]
  · intro err hk
    apply hstop
    rw [transferFiles_body_eq]
    simp [hk]

theorem transferFiles_wraps_upload_error_witness :
    (∀ p ∈ [exPlus], transferSucceeds exWorld exBucket [] p = true) ∧
    cacheOk exLocked = true ∧
    (transferFiles exWorld exBucket [] ([exPlus] ++ exLocked :: [exStale])).2.2
      = some (.transfer exLocked.Uri (.text exAccessDenied)) ∧
    ((∀ key resp msg, storageKey exLocked = .ok key →
      exWorld.httpDo (downloadRequest [] exLocked) = .ok resp →
      exWorld.putFault exBucket key = some msg →
      (transferFiles exWorld exBucket [] ([exPlus] ++ exLocked :: [exStale])).2.2
        = some (.transfer exLocked.Uri (.text msg))) ∧
    (∀ key msg, storageKey exLocked = .ok key →
      exWorld.httpDo (downloadRequest [] exLocked) = .error msg →
      (transferFiles exWorld exBucket [] ([exPlus] ++ exLocked :: [exStale])).2.2
        = some (.text msg)) ∧
    (∀ err, storageKey exLocked = .error err →
      (transferFiles exWorld exBucket [] ([exPlus] ++ exLocked :: [exStale])).2.2 = some err)) :=
  ⟨by decide, by decide, by decide,
    transferFiles_wraps_upload_error exWorld exBucket [] [exPlus] exLocked [exStale]
      (by decide) (by decide)⟩

/-! ## A second run after a transfer -/

/-- A probe that reads the bucket: the metadata of the object at the key,
or the not-found error. -/
theorem HeadObject_reads (w : World) (bucket key : GoString) (h : w.probesReadBucket) :
    oss.HeadObject w bucket key =
      match World.find w.objects bucket key with
      | none => .error oss.noSuchKeyError
      | some o => .ok o.Metadata := by
  unfold oss.HeadObject
  rw [h bucket key]

theorem isNoSuchKey_noSuchKeyError : isNoSuchKey oss.noSuchKeyError = true := by
  decide

theorem probeAnswers_reads (w : World) (bucket key : GoString) (d : dependency)
    (hk : storageKey d = .ok key) (h : w.probesReadBucket) :
    probeAnswers w bucket d =
      match World.find w.objects bucket key with
      | none => true
      | some _ => true := by
  unfold probeAnswers
  rw [hk]
  simp only []
  rw [HeadObject_reads w bucket key h]
  cases World.find w.objects bucket key with
  | none => exact isNoSuchKey_noSuchKeyError
  | some o => rfl

theorem needsTransfer_reads (w : World) (bucket key : GoString) (d : dependency)
    (hk : storageKey d = .ok key) (h : w.probesReadBucket) :
    needsTransfer w bucket d =
      match World.find w.objects bucket key with
      | none => true
      | some o => mapIndex o.Metadata sha256MetadataKey != d.Sha256 := by
  unfold needsTransfer
  rw [hk]
  simp only []
  rw [HeadObject_reads w bucket key h]
  cases World.find w.objects bucket key with
  | none => exact isNoSuchKey_noSuchKeyError
  | some o => rfl

/-- C6, as stated, fails: two descriptors for the same key with different
hashes are both transferred, the second upload replacing the first, and the
second run of the filter returns the first of them again. -/
theorem filterFiles_rerun_counterexample :
    storageKey exStale = storageKey exStaleMirror ∧
    (filterFiles exQuiet exBucket [exStale, exStaleMirror]).2
      = .ok [exStale.memo, exStaleMirror.memo] ∧
    (transferFiles exQuiet exBucket [] [exStale.memo, exStaleMirror.memo]).2.2 = none ∧
    (filterFiles (transferFiles exQuiet exBucket [] [exStale.memo, exStaleMirror.memo]).1
      exBucket [exStale, exStaleMirror]).2 = .ok [exStale.memo] := by
  decide

/-- C6, amended: when the descriptors of `deps` that resolve to the same
key carry the same `Sha256` (and the probes answer from the bucket): if
`filterFiles` succeeds with `F` and `transferFiles` of `F` then succeeds, a
second run of `filterFiles` on `deps` against the resulting bucket returns
the empty list. -/
theorem filterFiles_empty_after_transfer (w : World) (bucket ghToken : GoString)
    (deps F : List dependency) (hprobe : w.probesReadBucket)
    (hcons : ∀ d1 ∈ deps, ∀ d2 ∈ deps, storageKey d1 = storageKey d2 → d1.Sha256 = d2.Sha256)
    (hF : (filterFiles w bucket deps).2 = .ok F)
    (ht : (transferFiles w bucket ghToken F).2.2 = none) :
    (filterFiles (transferFiles w bucket ghToken F).1 bucket deps).2 = .ok [] := by
  have hall := filterFiles_ok_answers w bucket deps F hF
  have hfilter := filterFiles_of_answers w bucket deps hall
  have hFeq : F = (deps.filter (needsTransfer w bucket)).map dependency.memo := by
    rw [hfilter] at hF
    exact (Except.ok.inj hF).symm
  have hnet := transferFiles_network bucket ghToken F w
  have hprobe2 : (transferFiles w bucket ghToken F).1.probesReadBucket := by
    intro b k
    rw [hnet.1]
    exact hprobe b k
  -- what the second run sees at the key of each descriptor
  have hseen : ∀ d ∈ deps, ∃ key o, storageKey d = .ok key ∧
      World.find (transferFiles w bucket ghToken F).1.objects bucket key = some o ∧
      mapIndex o.Metadata sha256MetadataKey = d.Sha256 := by
    intro d hd
    obtain ⟨key, hkey, _⟩ := probeEvents_of_answers w bucket d (hall d hd)
    rcases transferFiles_objects bucket ghToken F w ht key with
      ⟨hsame, hnone⟩ | ⟨g, hg, hgk, o, ho, hmeta⟩
    · -- no transferred descriptor has this key: the object was up to date
      have hnot : needsTransfer w bucket d = false := by
        by_contra hne
        have hneeds : needsTransfer w bucket d = true := by simpa using hne
        have hmem : d.memo ∈ F := by
          rw [hFeq]
          exact List.mem_map_of_mem _ (List.mem_filter.mpr ⟨hd, hneeds⟩)
        exact hnone d.memo hmem (by rw [storageKey_memo, hkey])
      rw [needsTransfer_reads w bucket key d hkey hprobe] at hnot
      cases hfind : World.find w.objects bucket key with
      | none =>
        rw [hfind] at hnot
        cases hnot
      | some o =>
        rw [hfind] at hnot
        refine ⟨key, o, hkey, by rw [hsame, hfind], ?_⟩
        simpa using hnot
    · -- the key was written by a transferred descriptor with the same hash
      rw [hFeq] at hg
      obtain ⟨g0, hg0mem, rfl⟩ := List.mem_map.mp hg
      have hg0 : g0 ∈ deps := (List.mem_filter.mp hg0mem).1
      have hsha : g0.Sha256 = d.Sha256 := by
        apply hcons g0 hg0 d hd
        rw [← storageKey_memo g0, hgk, hkey]
      refine ⟨key, o, hkey, ho, ?_⟩
      rw [hmeta, memo_Sha256, hsha]
      simp [mapIndex]
  have hall2 : ∀ d ∈ deps,
      probeAnswers (transferFiles w bucket ghToken F).1 bucket d = true := by
    intro d hd
    obtain ⟨key, o, hkey, hfind, _⟩ := hseen d hd
    rw [probeAnswers_reads _ bucket key d hkey hprobe2, hfind]
  have hnone2 : ∀ d ∈ deps,
      needsTransfer (transferFiles w bucket ghToken F).1 bucket d = false := by
    intro d hd
    obtain ⟨key, o, hkey, hfind, hsha⟩ := hseen d hd
    rw [needsTransfer_reads _ bucket key d hkey hprobe2, hfind]
    simp [hsha]
  rw [filterFiles_of_answers _ bucket deps hall2]
  have hempty : deps.filter (needsTransfer (transferFiles w bucket ghToken F).1 bucket) = [] := by
    rw [List.filter_eq_nil_iff]
    intro d hd
    rw [hnone2 d hd]
    simp
  rw [hempty]
  rfl

theorem filterFiles_empty_after_transfer_witness :
    exQuiet.probesReadBucket ∧
    (∀ d1 ∈ [exPlus, exCurrent, exStale], ∀ d2 ∈ [exPlus, exCurrent, exStale],
      storageKey d1 = storageKey d2 → d1.Sha256 = d2.Sha256) ∧
    (filterFiles exQuiet exBucket [exPlus, exCurrent, exStale]).2
      = .ok [exPlus.memo, exStale.memo] ∧
    (transferFiles exQuiet exBucket [] [exPlus.memo, exStale.memo]).2.2 = none ∧
    (filterFiles (transferFiles exQuiet exBucket [] [exPlus.memo, exStale.memo]).1 exBucket
      [exPlus, exCurrent, exStale]).2 = .ok [] :=
  ⟨fun _ _ => rfl, by decide, by decide, by decide,
    filterFiles_empty_after_transfer exQuiet exBucket [] [exPlus, exCurrent, exStale]
      [exPlus.memo, exStale.memo] (fun _ _ => rfl) (by decide) (by decide) (by decide)⟩
